import Mathlib

/-!
Verification of the CPM scheduling engine (crate `schedule-core`).

Shallow embedding conventions:
* A calendar date is an `Int`: the number of days since 1970-01-01
  (the same encoding the engine uses when persisting `DataType::Date`
  columns, see `Schedule::date_to_i32`).
* Weekdays are `Fin 7`, numbered as `chrono`'s `num_days_from_monday`:
  Monday = 0, ..., Sunday = 6.  1970-01-01 was a Thursday, so the weekday
  of day `d` is `(d + 3) % 7`.
* `f64` values that the validator inspects are embedded as `F64`:
  either a finite rational or a single `nonfinite` marker (NaN and the
  infinities are indistinguishable to the validator, which checks
  `is_finite` before any comparison).
* Rust sets (`HashSet`) become `Finset`; Rust vectors become `List`.
* Fallible operations return `Except`; operations that mutate `self`
  become explicit state passing `Schedule → Schedule × Except ε α`.
-/

/-! ### Civil date arithmetic

Day-count conversions used by the holiday generator
(`WorkCalendar::add_us_holidays`) and by `Schedule::calendar_for_metadata`.
They mirror the proleptic Gregorian calendar that `chrono::NaiveDate`
implements. -/

def is_leap_year (y : Int) : Bool :=
  y % 4 = 0 && (y % 100 ≠ 0 || y % 400 = 0)

def month_length (y : Int) (m : Int) : Int :=
  if m = 1 then 31
  else if m = 2 then (if is_leap_year y then 29 else 28)
  else if m = 3 then 31
  else if m = 4 then 30
  else if m = 5 then 31
  else if m = 6 then 30
  else if m = 7 then 31
  else if m = 8 then 31
  else if m = 9 then 30
  else if m = 10 then 31
  else if m = 11 then 30
  else 31

/-- Days since 1970-01-01 of the civil date `y-m-d` (days-from-civil
algorithm over truncating integer division, as in `chrono`). -/
def days_from_civil (y m d : Int) : Int :=
  let y' := y - (if m ≤ 2 then 1 else 0)
  let era := (if 0 ≤ y' then y' else y' - 399) / 400
  let yoe := y' - era * 400
  let mp := m + (if 2 < m then -3 else 9)
  let doy := (153 * mp + 2) / 5 + d - 1
  let doe := yoe * 365 + yoe / 4 - yoe / 100 + doy
  era * 146097 + doe - 719468

/-- The civil year containing epoch day `z` (inverse of `days_from_civil`,
year component only; used to pick the default-calendar year range). -/
def year_of_day (z : Int) : Int :=
  let z' := z + 719468
  let era := (if 0 ≤ z' then z' else z' - 146096) / 146097
  let doe := z' - era * 146097
  let yoe := (doe - doe / 1460 + doe / 36524 - doe / 146096) / 365
  let y := yoe + era * 400
  let doy := doe - (365 * yoe + yoe / 4 - yoe / 100)
  let mp := (5 * doy + 2) / 153
  let m := mp + (if mp < 10 then 3 else -9)
  y + (if m ≤ 2 then 1 else 0)

/-- Weekday of epoch day `d`, numbered Monday = 0 .. Sunday = 6. -/
def weekday_of (d : Int) : Fin 7 :=
  ⟨((d + 3) % 7).toNat, by omega⟩

/-! ### WorkCalendar (src/crates/schedule-core/src/calendar.rs) -/

structure WorkCalendar where
  holidays : Finset Int
  non_working_days : Finset (Fin 7)
deriving DecidableEq

namespace WorkCalendar

/-- The documented calendar invariant (spec §3: "at least one weekday is
working"; `from_config` aborts when the working set is empty). -/
def Valid (cal : WorkCalendar) : Prop :=
  cal.non_working_days ≠ Finset.univ

instance (cal : WorkCalendar) : Decidable cal.Valid := by
  unfold Valid; infer_instance

/-- `is_available`: true iff the date is not a holiday and its weekday is
not a non-working day. -/
def is_available (cal : WorkCalendar) (date : Int) : Bool :=
  date ∉ cal.holidays && weekday_of date ∉ cal.non_working_days

/-- Fuel bound for the day-by-day searches: within any
`7 * (|holidays| + 1)` consecutive days at least one is available
(pigeonhole over a working weekday), so the unbounded Rust loops always
stop within this window when the calendar invariant holds. -/
def search_fuel (cal : WorkCalendar) : Nat :=
  7 * (cal.holidays.card + 1)

/-- Scan upward from `d`, at most `fuel` days, for an available date. -/
def search_up (cal : WorkCalendar) : Nat → Int → Option Int
  | 0, _ => none
  | fuel + 1, d => if cal.is_available d then some d else search_up cal fuel (d + 1)

/-- Scan downward from `d`, at most `fuel` days, for an available date. -/
def search_down (cal : WorkCalendar) : Nat → Int → Option Int
  | 0, _ => none
  | fuel + 1, d => if cal.is_available d then some d else search_down cal fuel (d - 1)

/-- `next_available`: first available date strictly after `from`.
The Rust loop is unbounded; under the calendar invariant it stops within
`search_fuel` days (proved below), so the fallback value is never used. -/
def next_available (cal : WorkCalendar) (from_ : Int) : Int :=
  (cal.search_up cal.search_fuel (from_ + 1)).getD (from_ + 1)

/-- `prev_available`: first available date strictly before `from`. -/
def prev_available (cal : WorkCalendar) (from_ : Int) : Int :=
  (cal.search_down cal.search_fuel (from_ - 1)).getD (from_ - 1)

/-- `find_next_available`: the Rust loop advances one day at a time and
counts available days until `days_ahead` of them were seen; each count
increment lands exactly on the next available date, so the loop computes
the `days_ahead`-fold iterate of `next_available` (and returns `from`
unchanged when `days_ahead ≤ 0`). -/
def find_next_available (cal : WorkCalendar) (from_ : Int) (days_ahead : Int) : Int :=
  (cal.next_available)^[days_ahead.toNat] from_

/-- `find_prev_available`: symmetric, going backward. -/
def find_prev_available (cal : WorkCalendar) (from_ : Int) (days_back : Int) : Int :=
  (cal.prev_available)^[days_back.toNat] from_

/-- `count_available_days`: number of available days in `[start, end]`
(0 when the range is empty). -/
def count_available_days (cal : WorkCalendar) (start end_ : Int) : Int :=
  (((List.range (end_ - start + 1).toNat).map fun k : Nat => start + (k : Int)).filter
    fun d => cal.is_available d).length

/-- `available_days_in_range`: the dates themselves, in order. -/
def available_days_in_range (cal : WorkCalendar) (start end_ : Int) : List Int :=
  ((List.range (end_ - start + 1).toNat).map fun k : Nat => start + (k : Int)).filter
    fun d => cal.is_available d

/-- `nth_weekday`: the n-th occurrence (1-based) of `weekday` in the month;
the source aborts when the month has fewer occurrences, which never happens
for the arguments the holiday generator passes (n ≤ 4). -/
def nth_weekday (year month : Int) (weekday : Fin 7) (n : Nat) : Option Int :=
  let first := days_from_civil year month 1
  let hits := (List.range (month_length year month).toNat).filter
    fun k => weekday_of (first + k) = weekday
  (hits.get? (n - 1)).map fun k => first + (k : Int)

/-- `last_weekday`: the last occurrence of `weekday` in the month. -/
def last_weekday (year month : Int) (weekday : Fin 7) : Option Int :=
  let first := days_from_civil year month 1
  let hits := (List.range (month_length year month).toNat).filter
    fun k => weekday_of (first + k) = weekday
  hits.getLast?.map fun k => first + (k : Int)

/-- `add_us_holidays`: the ten US federal holidays of a year. -/
def us_holidays (year : Int) : List Int :=
  [some (days_from_civil year 1 1),
   nth_weekday year 1 0 3,
   nth_weekday year 2 0 3,
   last_weekday year 5 0,
   some (days_from_civil year 7 4),
   nth_weekday year 9 0 1,
   nth_weekday year 10 0 2,
   some (days_from_civil year 11 11),
   nth_weekday year 11 3 4,
   some (days_from_civil year 12 25)].filterMap id

/-- `add_us_holidays_range` over `[start_year, end_year]`. -/
def us_holidays_range (start_year end_year : Int) : List Int :=
  (List.range (end_year - start_year + 1).toNat).flatMap
    fun k => us_holidays (start_year + k)

/-- `WorkCalendar::with_year_range`: Sat/Sun non-working plus the US
federal holidays of every year in the (order-normalized) range. -/
def with_year_range (start_year end_year : Int) : WorkCalendar :=
  let lo := if start_year ≤ end_year then start_year else end_year
  let hi := if start_year ≤ end_year then end_year else start_year
  { holidays := (us_holidays_range lo hi).toFinset
    non_working_days := {(5 : Fin 7), (6 : Fin 7)} }

end WorkCalendar

/-! ### WorkCalendarConfig -/

structure WorkCalendarConfig where
  working_days : List (Fin 7)
  holidays : List Int
deriving DecidableEq

namespace WorkCalendar

/-- `From<&WorkCalendar> for WorkCalendarConfig`: working weekdays in
Monday-first order, holidays sorted ascending. -/
def to_config (cal : WorkCalendar) : WorkCalendarConfig :=
  { working_days := (List.finRange 7).filter fun d => d ∉ cal.non_working_days
    holidays := cal.holidays.sort (· ≤ ·) }

/-- `WorkCalendar::from_config`: aborts (here: `none`) when no weekday is
working; otherwise the non-working set is the complement of the working
list and the holidays list becomes a set. -/
def from_config (config : WorkCalendarConfig) : Option WorkCalendar :=
  if config.working_days.isEmpty then none
  else some
    { holidays := config.holidays.toFinset
      non_working_days := Finset.univ.filter fun d => d ∉ config.working_days }

end WorkCalendar

/-! ### f64 embedding

The validator only ever adds weights, compares against decimal literals,
and checks finiteness.  We embed an `f64` as a finite rational or one
`nonfinite` marker; comparisons are only reached after an `is_finite`
guard, where they agree with IEEE comparison.  The decimal literals and
the comparison margins in every claim are far larger than f64 rounding
error, so exact rational arithmetic is a faithful model. -/

inductive F64 where
  | fin (q : ℚ)
  | nonfinite
deriving DecidableEq

namespace F64

def is_finite : F64 → Bool
  | fin _ => true
  | nonfinite => false

def add : F64 → F64 → F64
  | fin a, fin b => fin (a + b)
  | _, _ => nonfinite

instance : Add F64 := ⟨add⟩

/-- IEEE `<` restricted to the finite values on which the validator uses
it (every comparison is behind an `is_finite` guard). -/
def lt : F64 → F64 → Bool
  | fin a, fin b => decide (a < b)
  | _, _ => false

end F64

/-- `EPSILON` from task_validation.rs. -/
def EPSILON : ℚ := 1 / 1000000

/-- `approx_equal(a, b)`: `(a - b).abs() <= EPSILON`. -/
def approx_equal : F64 → F64 → Bool
  | F64.fin a, F64.fin b => decide (|a - b| ≤ EPSILON)
  | _, _ => false

/-! ### Task model

The `task.rs` module of `schedule-core` is not among the sources; the
record layout below is fixed by the present sources: the DataFrame schema
(`Schedule::default_schema`), the validator's field accesses, `resource.rs`,
and spec §3.  Dates are epoch-day `Int`s, `Option` marks nullable columns. -/

inductive ProgressMeasurement where
  | percent_complete
  | zero_one_hundred
  | fifty_fifty
  | twenty_five_seventy_five
  | seventy_five_twenty_five
  | pre_defined_rationale
deriving DecidableEq

structure RationaleItem where
  id : Int
  name : String
  weight : F64
  is_complete : Bool
deriving DecidableEq

structure ResourceAllocation where
  resource_id : String
  role : Option String
  allocation_units : F64
  cost_rate : Option F64
  notes : Option String
deriving DecidableEq

namespace ScheduleCore

structure Task where
  id : Int
  name : String
  duration_days : Int
  predecessors : List Int
  early_start : Option Int
  early_finish : Option Int
  late_start : Option Int
  late_finish : Option Int
  baseline_start : Option Int
  baseline_finish : Option Int
  actual_start : Option Int
  actual_finish : Option Int
  percent_complete : Option F64
  progress_measurement : ProgressMeasurement
  pre_defined_rationale : List RationaleItem
  schedule_variance_days : Option Int
  total_float : Option Int
  is_critical : Option Bool
  successors : List Int
  parent_id : Option Int
  wbs_code : Option String
  task_notes : Option String
  task_attachments : List String
  resource_allocations : List ResourceAllocation
deriving DecidableEq

namespace Task

/-- `Task::new(id, name, duration_days)`: a minimal record, every other
field unset/empty (progress measurement defaults to the unconstrained
`percent_complete` variant). -/
def new (id : Int) (name : String) (duration_days : Int) : Task :=
  { id := id
    name := name
    duration_days := duration_days
    predecessors := []
    early_start := none
    early_finish := none
    late_start := none
    late_finish := none
    baseline_start := none
    baseline_finish := none
    actual_start := none
    actual_finish := none
    percent_complete := none
    progress_measurement := ProgressMeasurement.percent_complete
    pre_defined_rationale := []
    schedule_variance_days := none
    total_float := none
    is_critical := none
    successors := []
    parent_id := none
    wbs_code := none
    task_notes := none
    task_attachments := []
    resource_allocations := [] }

end Task

/-! ### Task validation (src/crates/schedule-core/src/task_validation.rs) -/

inductive TaskValidationError where
  | negative_duration (id dur : Int)
  | invalid_percent_complete (id : Int)
  | progress_mismatch (id : Int)
  | empty_rationale (id : Int)
  | nonfinite_weight (id : Int) (name : String)
  | negative_weight (id : Int) (name : String)
  | duplicate_rationale_id (id rid : Int)
  | weight_sum_mismatch (id : Int)
  | empty_resource_id (id : Int) (idx : Nat)
  | invalid_allocation_units (id : Int) (rid : String)
  | invalid_cost_rate (id : Int) (rid : String)
deriving DecidableEq

/-- The rationale loop of `validate_task`: running weight total and the
set of ids seen so far; ends with the `approx_equal(total, 1.0)` check. -/
def validate_rationales (tid : Int) :
    List RationaleItem → F64 → List Int → Except TaskValidationError Unit
  | [], total, _ =>
    if !approx_equal total (F64.fin 1) then
      Except.error (TaskValidationError.weight_sum_mismatch tid)
    else Except.ok ()
  | r :: rest, total, seen =>
    if !r.weight.is_finite then
      Except.error (TaskValidationError.nonfinite_weight tid r.name)
    else if r.weight.lt (F64.fin 0) then
      Except.error (TaskValidationError.negative_weight tid r.name)
    else if r.id ∈ seen then
      Except.error (TaskValidationError.duplicate_rationale_id tid r.id)
    else validate_rationales tid rest (total + r.weight) (r.id :: seen)

/-- The resource-allocation loop of `validate_task`. -/
def validate_allocations (tid : Int) :
    Nat → List ResourceAllocation → Except TaskValidationError Unit
  | _, [] => Except.ok ()
  | idx, a :: rest =>
    if a.resource_id.trim.isEmpty then
      Except.error (TaskValidationError.empty_resource_id tid idx)
    else if !a.allocation_units.is_finite ||
        a.allocation_units.lt (F64.fin (-EPSILON)) then
      Except.error (TaskValidationError.invalid_allocation_units tid a.resource_id)
    else
      match a.cost_rate with
      | some c =>
        if !c.is_finite || c.lt (F64.fin (-EPSILON)) then
          Except.error (TaskValidationError.invalid_cost_rate tid a.resource_id)
        else validate_allocations tid (idx + 1) rest
      | none => validate_allocations tid (idx + 1) rest

/-- The per-variant percent-complete check of `validate_task`. -/
def validate_progress (t : Task) : Except TaskValidationError Unit :=
  match t.progress_measurement with
  | ProgressMeasurement.zero_one_hundred =>
    match t.percent_complete with
    | some pct =>
      if !(approx_equal pct (F64.fin 0) || approx_equal pct (F64.fin 1)) then
        Except.error (TaskValidationError.progress_mismatch t.id)
      else Except.ok ()
    | none => Except.ok ()
  | ProgressMeasurement.fifty_fifty =>
    match t.percent_complete with
    | some pct =>
      if !([F64.fin 0, F64.fin (1/2), F64.fin 1].any fun v => approx_equal v pct) then
        Except.error (TaskValidationError.progress_mismatch t.id)
      else Except.ok ()
    | none => Except.ok ()
  | ProgressMeasurement.twenty_five_seventy_five =>
    match t.percent_complete with
    | some pct =>
      if !([F64.fin 0, F64.fin (1/4), F64.fin (3/4), F64.fin 1].any
          fun v => approx_equal v pct) then
        Except.error (TaskValidationError.progress_mismatch t.id)
      else Except.ok ()
    | none => Except.ok ()
  | ProgressMeasurement.seventy_five_twenty_five =>
    match t.percent_complete with
    | some pct =>
      if !([F64.fin 0, F64.fin (1/4), F64.fin (3/4), F64.fin 1].any
          fun v => approx_equal v pct) then
        Except.error (TaskValidationError.progress_mismatch t.id)
      else Except.ok ()
    | none => Except.ok ()
  | ProgressMeasurement.percent_complete => Except.ok ()
  | ProgressMeasurement.pre_defined_rationale =>
    if t.pre_defined_rationale.isEmpty then
      Except.error (TaskValidationError.empty_rationale t.id)
    else validate_rationales t.id t.pre_defined_rationale (F64.fin 0) []

/-- `validate_task`. -/
def validate_task (t : Task) : Except TaskValidationError Unit :=
  if t.duration_days < 0 then
    Except.error (TaskValidationError.negative_duration t.id t.duration_days)
  else
    match t.percent_complete with
    | some pct =>
      if !pct.is_finite || pct.lt (F64.fin (-EPSILON)) ||
          (F64.fin (1 + EPSILON)).lt pct then
        Except.error (TaskValidationError.invalid_percent_complete t.id)
      else
        match validate_progress t with
        | Except.error e => Except.error e
        | Except.ok _ => validate_allocations t.id 0 t.resource_allocations
    | none =>
      match validate_progress t with
      | Except.error e => Except.error e
      | Except.ok _ => validate_allocations t.id 0 t.resource_allocations
/-! ### Schedule metadata (src/crates/schedule-core/src/metadata.rs) -/

structure ScheduleMetadata where
  project_name : String
  project_description : String
  project_start_date : Int
  project_end_date : Int
deriving DecidableEq

/-- `ScheduleMetadata::default`: 2025-01-01 .. 2025-12-31. -/
def ScheduleMetadata.default : ScheduleMetadata :=
  { project_name := "New Project"
    project_description := "No description"
    project_start_date := days_from_civil 2025 1 1
    project_end_date := days_from_civil 2025 12 31 }

/-! ### Errors

`PolarsError::ComputeError` values are raised by the engine with distinct
messages; we model them as a structured enumeration. -/

inductive ComputeError where
  | start_after_end
  | cycle_detected
  | end_precedes_schedule_finish (project_end required_finish : Int)
  | validation (e : TaskValidationError)
  | negative_duration (id dur : Int)
  | task_not_found (id : Int)
deriving DecidableEq

inductive ScheduleMetadataError where
  | start_after_end (start end_ : Int)
  | end_precedes_schedule_finish (project_end required_finish : Int)
  | computation
deriving DecidableEq

/-! ### Schedule (src/crates/schedule-core/src/schedule.rs)

The Polars DataFrame is an ordered table of task rows; we embed it as the
ordered `List Task` (one element per row; the `id` column is never null
because every row is created from a `Task` record). -/

structure Schedule where
  tasks : List Task
  metadata : ScheduleMetadata
  calendar : WorkCalendar
  calendar_is_custom : Bool
deriving DecidableEq

structure RefreshSummary where
  task_count : Nat
  critical_count : Nat
  critical_path : List Int
  latest_finish : Option Int
  positive_variance_count : Nat
  negative_variance_count : Nat
  on_track_variance_count : Nat
deriving DecidableEq

namespace Schedule

def calendar_for_metadata (metadata : ScheduleMetadata) : WorkCalendar :=
  WorkCalendar.with_year_range (year_of_day metadata.project_start_date)
    (year_of_day metadata.project_end_date)

def from_parts (metadata : ScheduleMetadata) (calendar : WorkCalendar)
    (calendar_is_custom : Bool) : Schedule :=
  { tasks := [], metadata := metadata, calendar := calendar
    calendar_is_custom := calendar_is_custom }

def new : Schedule :=
  from_parts ScheduleMetadata.default
    (calendar_for_metadata ScheduleMetadata.default) false

def new_with_metadata (metadata : ScheduleMetadata) : Schedule :=
  from_parts metadata (calendar_for_metadata metadata) false

def find_task (s : Schedule) (task_id : Int) : Option Task :=
  s.tasks.find? fun t => t.id = task_id

end Schedule

/-! ### Schedule DAG and topological order
(src/crates/schedule-core/src/graph/schedule_dag.rs, petgraph `toposort`)

`ScheduleDag::build` adds one node per row and an edge `p → t` for every
predecessor `p` of `t` that is itself a row id; references to unknown ids
contribute nothing.  `toposort` returns a topological order of the nodes
or fails when the graph has a cycle; we realize it with Kahn elimination:
repeatedly take the first row none of whose predecessors is still an
unprocessed row id. -/

def task_ids (tasks : List Task) : List Int := tasks.map fun t => t.id

/-- A row can be output when no remaining row is one of its predecessors
(predecessor ids that never were rows block nothing). -/
def removable (t : Task) (remaining : List Task) : Bool :=
  t.predecessors.all fun p => remaining.all fun r => r.id ≠ p

def topo_go : Nat → List Task → Option (List Int)
  | 0, remaining => if remaining.isEmpty then some [] else none
  | fuel + 1, remaining =>
    if remaining.isEmpty then some []
    else
      match remaining.find? (fun t => removable t remaining) with
      | none => none
      | some t => (topo_go fuel (remaining.erase t)).map fun order => t.id :: order

def toposort (tasks : List Task) : Option (List Int) :=
  topo_go tasks.length tasks

/-- The node-duration map of `ScheduleDag::build` (`HashMap` insertion per
row: for duplicate ids — never produced by the public API — the last row
wins). -/
def duration_of (tasks : List Task) (id : Int) : Int :=
  (((tasks.reverse.find? fun t => t.id = id).map fun t => t.duration_days)).getD 0

/-- An edge of the schedule DAG: `u → v` when `u` is a row id and some row
`v` lists `u` among its predecessors. -/
def dag_edge (tasks : List Task) (u v : Int) : Prop :=
  u ∈ task_ids tasks ∧ ∃ t ∈ tasks, t.id = v ∧ u ∈ t.predecessors

instance (tasks : List Task) (u v : Int) : Decidable (dag_edge tasks u v) := by
  unfold dag_edge; infer_instance

/-- The predecessor references of the table contain a directed cycle:
a closed nonempty edge walk. -/
def has_cycle (tasks : List Task) : Prop :=
  ∃ a l, List.Chain (dag_edge tasks) a (l ++ [a])

namespace Schedule

/-! ### Forward pass -/

/-- Lookup in the engine result map keyed by task id. -/
def lookup_esef (results : List (Int × Int × Int)) (id : Int) : Option (Int × Int) :=
  (results.find? fun r => r.1 = id).map fun r => (r.2.1, r.2.2)

/-- Modelled from the spec: the file `calculations/forward_pass.rs` of
`schedule-core` (the petgraph-based `CalcForwardPass` engine that
`Schedule::forward_pass` invokes) is not among the sources.  Per spec
§4.4 the engine topologically orders the DAG, rejects cycles with a
structured error, and computes, in order, `ES(t) = project_start` when
`t` has no incoming edges and `ES(t) = next_available(max EF(p))`
otherwise, with `EF(t) = find_next_available(ES(t), duration(t))`. -/
def forward_results (s : Schedule) : Option (List (Int × Int × Int)) :=
  match toposort s.tasks with
  | none => none
  | some order =>
    some (order.foldl (fun acc id =>
      let preds := (((s.tasks.find? fun t => t.id = id).map
        fun t => t.predecessors)).getD []
      let efs := preds.filterMap fun p => (lookup_esef acc p).map fun r => r.2
      let es :=
        match efs with
        | [] => s.metadata.project_start_date
        | e :: rest => s.calendar.next_available (rest.foldl max e)
      let ef := s.calendar.find_next_available es (duration_of s.tasks id)
      acc ++ [(id, es, ef)]) [])

/-- The fallback of `Schedule::forward_pass` for rows the engine did not
cover: max available predecessor finish (or `project_start` when none is
known), stepped and extended by the duration. -/
def forward_fallback (s : Schedule) (results : List (Int × Int × Int))
    (t : Task) : Int × Int :=
  let known := t.predecessors.filterMap fun p => (lookup_esef results p).map fun r => r.2
  let es :=
    if t.predecessors.isEmpty then s.metadata.project_start_date
    else
      s.calendar.next_available
        (match known with
         | [] => s.metadata.project_start_date
         | e :: rest => rest.foldl max e)
  (es, s.calendar.find_next_available es t.duration_days)

def forward_persist (s : Schedule) (results : List (Int × Int × Int))
    (t : Task) : Task :=
  match lookup_esef results t.id with
  | some (es, ef) => { t with early_start := some es, early_finish := some ef }
  | none =>
    let esef := forward_fallback s results t
    { t with early_start := some esef.1, early_finish := some esef.2 }

/-- `Schedule::forward_pass`: no-op on an empty table; otherwise runs the
engine and persists ES/EF into every row. -/
def forward_pass (s : Schedule) : Except ComputeError Schedule :=
  if s.tasks.isEmpty then Except.ok s
  else
    match forward_results s with
    | none => Except.error ComputeError.cycle_detected
    | some results =>
      Except.ok { s with tasks := s.tasks.map (forward_persist s results) }

/-! ### Backward pass
(src/crates/schedule-core/src/calculations/backward_pass.rs and
`Schedule::backward_pass`) -/

/-- Outgoing DAG neighbors of `id`: the rows listing `id` as predecessor
(parallel edges from repeated mentions do not change the minimum fold). -/
def dag_successors (tasks : List Task) (id : Int) : List Int :=
  (tasks.filter fun t => id ∈ t.predecessors).map fun t => t.id

/-- One step of `BackwardPass::execute` over the reversed topological
order: `LF` is `project_end` clipped by `prev_available(LS(succ))` over
the successors already computed, `LS = find_prev_available(LF, duration)`. -/
def backward_step (s : Schedule) (acc : List (Int × Int × Int)) (id : Int) :
    List (Int × Int × Int) :=
  let candidates := (dag_successors s.tasks id).filterMap fun sid =>
    ((acc.find? fun r => r.1 = sid).map fun r => s.calendar.prev_available r.2.1)
  let lf := candidates.foldl (fun best c => if c < best then c else best)
    s.metadata.project_end_date
  let ls := s.calendar.find_prev_available lf (duration_of s.tasks id)
  acc ++ [(id, ls, lf)]

def backward_results (s : Schedule) : Option (List (Int × Int × Int)) :=
  match toposort s.tasks with
  | none => none
  | some order => some (order.reverse.foldl (backward_step s) [])

/-- Row persist of `Schedule::backward_pass`: late dates from the engine,
falling back to the early counterparts where the engine left a hole. -/
def backward_persist (results : List (Int × Int × Int)) (t : Task) : Task :=
  match lookup_esef results t.id with
  | some (ls, lf) => { t with late_start := some ls, late_finish := some lf }
  | none => { t with late_start := t.early_start, late_finish := t.early_finish }

/-- The `es_map` of `Schedule::backward_pass`: id to early-start pairs in
row order (nulls skipped; on duplicate ids the last row wins). -/
def es_pairs (tasks : List Task) : List (Int × Int) :=
  tasks.filterMap fun t => t.early_start.map fun es => (t.id, es)

/-- Total-float and criticality derivation of `Schedule::backward_pass`:
`total_float = late_start − early_start` in epoch days (missing values
default to 0), `is_critical = (total_float == 0)`. -/
def float_update (tasks1 : List Task) (t : Task) : Task :=
  let es_days := ((((es_pairs tasks1).reverse.find? fun p => p.1 = t.id).map
    fun p => p.2)).getD 0
  let ls_days := t.late_start.getD 0
  let tf := ls_days - es_days
  { t with total_float := some tf, is_critical := some (decide (tf = 0)) }

def backward_pass (s : Schedule) : Except ComputeError Schedule :=
  if s.tasks.isEmpty then Except.ok s
  else
    match backward_results s with
    | none => Except.error ComputeError.cycle_detected
    | some results =>
      let tasks1 := s.tasks.map (backward_persist results)
      Except.ok { s with tasks := tasks1.map (float_update tasks1) }

/-! ### Derived fields and refresh -/

def latest_early_finish (s : Schedule) : Option Int :=
  s.tasks.foldl
    (fun latest t =>
      match t.early_finish with
      | some candidate =>
        match latest with
        | some current => if current ≥ candidate then some current else some candidate
        | none => some candidate
      | none => latest)
    none

def validate_project_horizon (s : Schedule) : Except ComputeError Unit :=
  if s.metadata.project_start_date > s.metadata.project_end_date then
    Except.error ComputeError.start_after_end
  else
    match latest_early_finish s with
    | some latest_finish =>
      if latest_finish > s.metadata.project_end_date then
        Except.error (ComputeError.end_precedes_schedule_finish
          s.metadata.project_end_date latest_finish)
      else Except.ok ()
    | none => Except.ok ()

/-- `Schedule::working_days_diff`. -/
def working_days_diff (cal : WorkCalendar) (baseline actual : Int) : Int :=
  if baseline = actual then 0
  else if actual > baseline then cal.count_available_days baseline actual - 1
  else -(cal.count_available_days actual baseline - 1)

/-- The per-row variance of `Schedule::set_schedule_variance`. -/
def variance_of (cal : WorkCalendar) (t : Task) : Option Int :=
  match t.baseline_finish, t.actual_finish with
  | some bf, some af => some (working_days_diff cal bf af)
  | _, _ =>
    match t.baseline_start, t.actual_start with
    | some bs, some as_ => some (working_days_diff cal bs as_)
    | _, _ => none

def set_schedule_variance (s : Schedule) : Schedule :=
  { s with tasks := s.tasks.map fun t =>
      { t with schedule_variance_days := variance_of s.calendar t } }

/-- Remove consecutive duplicates (`Vec::dedup` after sorting). -/
def dedup_consecutive : List Int → List Int
  | [] => []
  | [a] => [a]
  | a :: b :: rest =>
    if a = b then dedup_consecutive (b :: rest)
    else a :: dedup_consecutive (b :: rest)

/-- `Schedule::set_successors_column`: for every row, the ids of the rows
that list it as predecessor, sorted ascending and de-duplicated (repeated
mentions inside one predecessor list disappear in the de-duplication). -/
def set_successors_column (s : Schedule) : Schedule :=
  { s with tasks := s.tasks.map fun t =>
      { t with successors := dedup_consecutive (List.insertionSort (· ≤ ·)
          ((s.tasks.filter fun u => t.id ∈ u.predecessors).map fun u => u.id)) } }

/-- The sort key order of the critical path: early start ascending, ties
by id ascending (`sort_by(cmp(a.0, b.0).then_with(cmp(a.1, b.1)))`). -/
def pair_le (a b : Int × Int) : Prop :=
  a.1 < b.1 ∨ (a.1 = b.1 ∧ a.2 ≤ b.2)

instance : DecidableRel pair_le := fun a b => by unfold pair_le; infer_instance

/-- The `(early_start, id)` pairs of the zero-float rows, in row order,
with a missing early start defaulting to the project start. -/
def critical_pairs (s : Schedule) : List (Int × Int) :=
  s.tasks.filterMap fun t =>
    match t.total_float with
    | some tf =>
      if tf = 0 then
        some (t.early_start.getD s.metadata.project_start_date, t.id)
      else none
    | none => none

/-- `Schedule::refresh`: date pre-check, forward pass, horizon check,
backward pass, variance, successors, then the summary.  The pair returned
is the schedule state after the call (on failure the edits already
persisted remain) together with the result. -/
def refresh (s : Schedule) : Schedule × Except ComputeError RefreshSummary :=
  if s.metadata.project_start_date > s.metadata.project_end_date then
    (s, Except.error ComputeError.start_after_end)
  else
    match forward_pass s with
    | Except.error e => (s, Except.error e)
    | Except.ok s1 =>
      match validate_project_horizon s1 with
      | Except.error e => (s1, Except.error e)
      | Except.ok _ =>
        match backward_pass s1 with
        | Except.error e => (s1, Except.error e)
        | Except.ok s2 =>
          let s3 := set_schedule_variance s2
          let s4 := set_successors_column s3
          let path := (List.insertionSort pair_le (critical_pairs s4)).map
            fun p => p.2
          (s4, Except.ok
            { task_count := s4.tasks.length
              critical_count :=
                (s4.tasks.filter fun t => t.is_critical = some true).length
              critical_path := path
              latest_finish := latest_early_finish s4
              positive_variance_count :=
                (s4.tasks.filter fun t =>
                  match t.schedule_variance_days with
                  | some v => decide (0 < v)
                  | none => false).length
              negative_variance_count :=
                (s4.tasks.filter fun t =>
                  match t.schedule_variance_days with
                  | some v => decide (v < 0)
                  | none => false).length
              on_track_variance_count :=
                (s4.tasks.filter fun t =>
                  match t.schedule_variance_days with
                  | some v => decide (v = 0)
                  | none => false).length })

/-! ### Mutators -/

/-- `Schedule::update_duration_column`: write the duration, then recompute
both passes (their failure leaves the written duration in place). -/
def update_duration_column (s : Schedule) (task_id : Int)
    (new_duration_days : Int) : Schedule × Except ComputeError Unit :=
  let s1 := { s with tasks := s.tasks.map fun t =>
    if t.id = task_id then { t with duration_days := new_duration_days } else t }
  match forward_pass s1 with
  | Except.error e => (s1, Except.error e)
  | Except.ok s2 =>
    match backward_pass s2 with
    | Except.error e => (s2, Except.error e)
    | Except.ok s3 => (s3, Except.ok ())

/-- `Schedule::upsert_task`. -/
def upsert_task (s : Schedule) (id : Int) (name : String) (duration_days : Int)
    (predecessors : Option (List Int)) : Schedule × Except ComputeError Unit :=
  if duration_days < 0 then
    (s, Except.error (ComputeError.negative_duration id duration_days))
  else if s.tasks.any fun t => t.id = id then
    let s1 := { s with tasks := s.tasks.map fun t =>
      if t.id = id then { t with name := name } else t }
    let s2 :=
      match predecessors with
      | some preds =>
        { s1 with tasks := s1.tasks.map fun t =>
            if t.id = id then { t with predecessors := preds } else t }
      | none => s1
    update_duration_column s2 id duration_days
  else
    let task :=
      match predecessors with
      | some preds => { Task.new id name duration_days with predecessors := preds }
      | none => Task.new id name duration_days
    match validate_task task with
    | Except.error e => (s, Except.error (ComputeError.validation e))
    | Except.ok _ => ({ s with tasks := s.tasks ++ [task] }, Except.ok ())

/-- The conditional per-column writes of the update branch of
`Schedule::upsert_task_record` (each `if let Some(v)` / non-empty check
overwrites the stored column; progress measurement, rationale and
allocations are written unconditionally). -/
def record_overwrite (t task : Task) : Task :=
  { t with
    early_start := task.early_start <|> t.early_start
    early_finish := task.early_finish <|> t.early_finish
    late_start := task.late_start <|> t.late_start
    late_finish := task.late_finish <|> t.late_finish
    baseline_start := task.baseline_start <|> t.baseline_start
    baseline_finish := task.baseline_finish <|> t.baseline_finish
    actual_start := task.actual_start <|> t.actual_start
    actual_finish := task.actual_finish <|> t.actual_finish
    percent_complete := task.percent_complete <|> t.percent_complete
    schedule_variance_days := task.schedule_variance_days <|> t.schedule_variance_days
    total_float := task.total_float <|> t.total_float
    is_critical := task.is_critical <|> t.is_critical
    successors := if task.successors.isEmpty then t.successors else task.successors
    parent_id := task.parent_id <|> t.parent_id
    wbs_code := task.wbs_code <|> t.wbs_code
    task_notes := task.task_notes <|> t.task_notes
    task_attachments :=
      if task.task_attachments.isEmpty then t.task_attachments
      else task.task_attachments
    progress_measurement := task.progress_measurement
    pre_defined_rationale := task.pre_defined_rationale
    resource_allocations := task.resource_allocations }

/-- `Schedule::upsert_task_record`: validate, then update the existing row
(name and predecessors, duration with its recompute, then the remaining
columns) or append a new row. -/
def upsert_task_record (s : Schedule) (task : Task) :
    Schedule × Except ComputeError Unit :=
  match validate_task task with
  | Except.error e => (s, Except.error (ComputeError.validation e))
  | Except.ok _ =>
    if s.tasks.any fun t => t.id = task.id then
      let s1 := { s with tasks := s.tasks.map fun t =>
        if t.id = task.id then
          { t with name := task.name, predecessors := task.predecessors }
        else t }
      match update_duration_column s1 task.id task.duration_days with
      | (s2, Except.error e) => (s2, Except.error e)
      | (s2, Except.ok _) =>
        ({ s2 with tasks := s2.tasks.map fun t =>
            if t.id = task.id then record_overwrite t task else t },
         Except.ok ())
    else ({ s with tasks := s.tasks ++ [task] }, Except.ok ())

/-- `Schedule::delete_task`: scan a snapshot, dropping the target row and
stripping its id from every predecessor/successor list; when found,
rebuild the table row by row and refresh. -/
def delete_task (s : Schedule) (task_id : Int) :
    Schedule × Except ComputeError Bool :=
  if s.tasks.isEmpty then (s, Except.ok false)
  else
    let found := s.tasks.any fun t => t.id = task_id
    let kept := (s.tasks.filter fun t => t.id ≠ task_id).map fun t =>
      { t with
        predecessors := t.predecessors.filter fun p => p ≠ task_id
        successors := t.successors.filter fun q => q ≠ task_id }
    if !found then (s, Except.ok false)
    else
      let rebuilt := kept.foldl
        (fun acc t =>
          match acc with
          | (s', Except.error e) => (s', Except.error e)
          | (s', Except.ok _) => upsert_task_record s' t)
        ({ s with tasks := [] }, Except.ok ())
      match rebuilt with
      | (s', Except.error e) => (s', Except.error e)
      | (s', Except.ok _) =>
        match refresh s' with
        | (s2, Except.error e) => (s2, Except.error e)
        | (s2, Except.ok _) => (s2, Except.ok true)

/-! ### Metadata mutation -/

def validate_metadata_dates (metadata : ScheduleMetadata) :
    Except ScheduleMetadataError Unit :=
  if metadata.project_start_date > metadata.project_end_date then
    Except.error (ScheduleMetadataError.start_after_end
      metadata.project_start_date metadata.project_end_date)
  else Except.ok ()

def validate_schedule_finish_against_metadata (s : Schedule)
    (metadata : ScheduleMetadata) : Except ScheduleMetadataError Unit :=
  if s.tasks.isEmpty then Except.ok ()
  else
    match latest_early_finish s with
    | some required_finish =>
      if required_finish > metadata.project_end_date then
        Except.error (ScheduleMetadataError.end_precedes_schedule_finish
          metadata.project_end_date required_finish)
      else Except.ok ()
    | none => Except.ok ()

def validate_metadata (s : Schedule) (metadata : ScheduleMetadata) :
    Except ScheduleMetadataError Unit :=
  match validate_metadata_dates metadata with
  | Except.error e => Except.error e
  | Except.ok _ => validate_schedule_finish_against_metadata s metadata

def apply_metadata (s : Schedule) (metadata : ScheduleMetadata) : Schedule :=
  let s1 := { s with metadata := metadata }
  if !s.calendar_is_custom then
    { s1 with calendar := calendar_for_metadata metadata }
  else s1

/-- `Schedule::set_metadata`: validate, then commit (regenerating the
default calendar unless a custom one is installed). -/
def set_metadata (s : Schedule) (metadata : ScheduleMetadata) :
    Schedule × Except ScheduleMetadataError Unit :=
  match validate_metadata s metadata with
  | Except.error e => (s, Except.error e)
  | Except.ok _ => (apply_metadata s metadata, Except.ok ())

end Schedule


/-! ### Concrete instances used to instantiate the theorems -/

def example_calendar : WorkCalendar := WorkCalendar.with_year_range 2025 2025

def example_metadata (start_ end_ : Int) : ScheduleMetadata :=
  { project_name := "P", project_description := "D"
    project_start_date := start_, project_end_date := end_ }

def example_task (id dur : Int) (preds : List Int) : Task :=
  { Task.new id "T" dur with predecessors := preds }

/-- Tasks 1 ⇄ 2: the predecessor references form a cycle. -/
def cyclic_schedule : Schedule :=
  { tasks := [example_task 1 1 [2], example_task 2 1 [1]]
    metadata := example_metadata 20094 20453
    calendar := example_calendar, calendar_is_custom := true }

/-- Chain 1 → 2 with the project starting on Saturday 2025-01-04 and
ending Monday 2025-01-06; both durations zero. -/
def weekend_start_schedule : Schedule :=
  { tasks := [example_task 1 0 [], example_task 2 0 [1]]
    metadata := example_metadata 20092 20094
    calendar := example_calendar, calendar_is_custom := true }

/-- One task of one working day filling the whole horizon. -/
def tight_schedule : Schedule :=
  { tasks := [example_task 1 1 []]
    metadata := example_metadata 20094 20095
    calendar := example_calendar, calendar_is_custom := true }

/-- Chain 1 → 2 inside a roomy 2025 horizon. -/
def two_task_schedule : Schedule :=
  { tasks := [example_task 1 1 [], example_task 2 1 [1]]
    metadata := example_metadata 20094 20453
    calendar := example_calendar, calendar_is_custom := true }

/-- One task with baseline finish 2025-01-08 and actual finish 2025-01-10. -/
def variance_schedule : Schedule :=
  { tasks := [{ example_task 1 1 [] with
      baseline_finish := some (days_from_civil 2025 1 8)
      actual_finish := some (days_from_civil 2025 1 10) }]
    metadata := example_metadata 20094 20453
    calendar := example_calendar, calendar_is_custom := true }

/-- Percent complete 1 + 5e-7: beyond 1 but inside the validator's
epsilon tolerance. -/
def overflow_task : Task :=
  { Task.new 1 "T" 1 with percent_complete := some (F64.fin (1 + 1/2000000)) }

/-- A FiftyFifty task with percent complete 0.3. -/
def bad_fifty_task : Task :=
  { Task.new 3 "T" 1 with
    progress_measurement := ProgressMeasurement.fifty_fifty
    percent_complete := some (F64.fin (3/10)) }

/-- A PreDefinedRationale task with no rationale items. -/
def empty_rationale_task : Task :=
  { Task.new 4 "T" 1 with
    progress_measurement := ProgressMeasurement.pre_defined_rationale }

/-- The `(early_start, id)` sort key of a task id in the critical path
(early start defaulting to the project start, as in `Schedule::refresh`). -/
def Schedule.critical_key (s : Schedule) (id : Int) : Int × Int :=
  (((s.tasks.find? fun t => t.id = id).bind fun t => t.early_start).getD
    s.metadata.project_start_date, id)

instance : IsTotal (Int × Int) Schedule.pair_le :=
  ⟨by
    intro a b
    unfold Schedule.pair_le
    rcases lt_trichotomy a.1 b.1 with h | h | h
    · exact Or.inl (Or.inl h)
    · rcases le_total a.2 b.2 with h2 | h2
      · exact Or.inl (Or.inr ⟨h, h2⟩)
      · exact Or.inr (Or.inr ⟨h.symm, h2⟩)
    · exact Or.inr (Or.inl h)⟩

instance : IsTrans (Int × Int) Schedule.pair_le :=
  ⟨by
    intro a b c hab hbc
    unfold Schedule.pair_le at hab hbc ⊢
    rcases hab with h1 | ⟨h1, h2⟩ <;> rcases hbc with h3 | ⟨h3, h4⟩
    · exact Or.inl (lt_trans h1 h3)
    · exact Or.inl (h3 ▸ h1)
    · exact Or.inl (h1 ▸ h3)
    · exact Or.inr ⟨h1.trans h3, le_trans h2 h4⟩⟩

/-- The sum of the rationale weights (the running total the validator
accumulates). -/
def weight_total (items : List RationaleItem) : F64 :=
  items.foldl (fun acc r => acc + r.weight) (F64.fin 0)

end ScheduleCore

instance {ε α : Type} [DecidableEq ε] [DecidableEq α] : DecidableEq (Except ε α) :=
  fun x y =>
    match x, y with
    | Except.error a, Except.error b =>
      if h : a = b then isTrue (by rw [h]) else isFalse (by simp [h])
    | Except.error _, Except.ok _ => isFalse (by simp)
    | Except.ok _, Except.error _ => isFalse (by simp)
    | Except.ok a, Except.ok b =>
      if h : a = b then isTrue (by rw [h]) else isFalse (by simp [h])

/-! ## Theorems

### Calendar search correctness -/

namespace WorkCalendar

theorem search_up_sound {cal : WorkCalendar} :
    ∀ {fuel : Nat} {d e : Int}, cal.search_up fuel d = some e →
      d ≤ e ∧ e < d + fuel ∧ cal.is_available e = true ∧
        ∀ x, d ≤ x → x < e → cal.is_available x = false := by
  intro fuel
  induction fuel with
  | zero => intro d e h; simp [search_up] at h
  | succ n ih =>
    intro d e h
    simp only [search_up] at h
    by_cases hav : cal.is_available d
    · simp [hav] at h
      subst h
      refine ⟨le_refl _, by omega, hav, ?_⟩
      intro x hx1 hx2; omega
    · simp [hav] at h
      obtain ⟨h1, h2, h3, h4⟩ := ih h
      refine ⟨by omega, by omega, h3, ?_⟩
      intro x hx1 hx2
      rcases eq_or_lt_of_le hx1 with heq | hlt
      · subst heq; simpa using hav
      · exact h4 x (by omega) hx2

theorem search_up_isSome {cal : WorkCalendar} :
    ∀ {fuel k : Nat} {d : Int}, k < fuel → cal.is_available (d + k) = true →
      (cal.search_up fuel d).isSome = true := by
  intro fuel
  induction fuel with
  | zero => intro k d hk _; omega
  | succ n ih =>
    intro k d hk hav
    simp only [search_up]
    by_cases h0 : cal.is_available d
    · simp [h0]
    · simp only [h0, if_false]
      have hk0 : k ≠ 0 := by
        intro h; subst h; simp at hav; exact h0 hav
      exact ih (k := k - 1) (d := d + 1) (by omega)
        (by have : d + 1 + (↑(k - 1) : Int) = d + k := by omega
            rw [this]; exact hav)

theorem search_down_sound {cal : WorkCalendar} :
    ∀ {fuel : Nat} {d e : Int}, cal.search_down fuel d = some e →
      e ≤ d ∧ d - fuel < e ∧ cal.is_available e = true ∧
        ∀ x, e < x → x ≤ d → cal.is_available x = false := by
  intro fuel
  induction fuel with
  | zero => intro d e h; simp [search_down] at h
  | succ n ih =>
    intro d e h
    simp only [search_down] at h
    by_cases hav : cal.is_available d
    · simp [hav] at h
      subst h
      refine ⟨le_refl _, by omega, hav, ?_⟩
      intro x hx1 hx2; omega
    · simp [hav] at h
      obtain ⟨h1, h2, h3, h4⟩ := ih h
      refine ⟨by omega, by omega, h3, ?_⟩
      intro x hx1 hx2
      rcases eq_or_lt_of_le hx2 with heq | hlt
      · subst heq; simpa using hav
      · exact h4 x hx1 (by omega)

theorem search_down_isSome {cal : WorkCalendar} :
    ∀ {fuel k : Nat} {d : Int}, k < fuel → cal.is_available (d - k) = true →
      (cal.search_down fuel d).isSome = true := by
  intro fuel
  induction fuel with
  | zero => intro k d hk _; omega
  | succ n ih =>
    intro k d hk hav
    simp only [search_down]
    by_cases h0 : cal.is_available d
    · simp [h0]
    · simp only [h0, if_false]
      have hk0 : k ≠ 0 := by
        intro h; subst h; simp at hav; exact h0 hav
      exact ih (k := k - 1) (d := d - 1) (by omega)
        (by have : d - 1 - (↑(k - 1) : Int) = d - k := by omega
            rw [this]; exact hav)

theorem exists_working_weekday {cal : WorkCalendar} (h : cal.Valid) :
    ∃ w : Fin 7, w ∉ cal.non_working_days := by
  by_contra hc
  push_neg at hc
  exact h (Finset.eq_univ_iff_forall.mpr hc)

theorem exists_available_up (cal : WorkCalendar) (h : cal.Valid) (d : Int) :
    ∃ k : Nat, k < cal.search_fuel ∧ cal.is_available (d + k) = true := by
  obtain ⟨w, hw⟩ := exists_working_weekday h
  have hmod := Int.emod_nonneg ((w.val : Int) - (d + 3)) (by norm_num : (7 : Int) ≠ 0)
  have hmod2 := Int.emod_lt_of_pos ((w.val : Int) - (d + 3)) (by norm_num : (0 : Int) < 7)
  set o : Nat := (((w.val : Int) - (d + 3)) % 7).toNat with ho_def
  have ho_eq : (o : Int) = ((w.val : Int) - (d + 3)) % 7 := by omega
  have ho_lt : (o : Int) < 7 := by omega
  have hw7 : (w.val : Int) < 7 := by exact_mod_cast w.isLt
  have hw0 : (0 : Int) ≤ (w.val : Int) := by positivity
  have hwd : ∀ i : Nat, weekday_of (d + o + 7 * i) = w := by
    intro i
    apply Fin.ext
    show ((d + (o : Int) + 7 * (i : Int) + 3) % 7).toNat = w.val
    have hemod := Int.emod_emod_of_dvd ((w.val : Int) - (d + 3)) (dvd_refl 7)
    omega
  have key : ∃ i : Nat, i ≤ cal.holidays.card ∧
      (d + (o : Int) + 7 * i) ∉ cal.holidays := by
    by_contra hc
    push_neg at hc
    have hmaps : ∀ i ∈ Finset.range (cal.holidays.card + 1),
        (fun i : Nat => d + (o : Int) + 7 * i) i ∈ cal.holidays := by
      intro i hi
      exact hc i (Nat.lt_succ_iff.mp (Finset.mem_range.mp hi))
    have hinj : Set.InjOn (fun i : Nat => d + (o : Int) + 7 * i)
        (Finset.range (cal.holidays.card + 1)) := by
      intro i _ j _ hij
      simp only at hij
      omega
    have := Finset.card_le_card_of_injOn _ hmaps hinj
    simp [Finset.card_range] at this
  obtain ⟨i, hiK, hihol⟩ := key
  refine ⟨o + 7 * i, ?_, ?_⟩
  · unfold search_fuel; omega
  · have harg : d + ((o + 7 * i : Nat) : Int) = d + o + 7 * i := by push_cast; ring
    rw [harg]
    unfold is_available
    simp [hihol, hwd i, hw]

theorem exists_available_down (cal : WorkCalendar) (h : cal.Valid) (d : Int) :
    ∃ k : Nat, k < cal.search_fuel ∧ cal.is_available (d - k) = true := by
  obtain ⟨w, hw⟩ := exists_working_weekday h
  have hmod := Int.emod_nonneg ((d + 3) - (w.val : Int)) (by norm_num : (7 : Int) ≠ 0)
  have hmod2 := Int.emod_lt_of_pos ((d + 3) - (w.val : Int)) (by norm_num : (0 : Int) < 7)
  set o : Nat := (((d + 3) - (w.val : Int)) % 7).toNat with ho_def
  have ho_eq : (o : Int) = ((d + 3) - (w.val : Int)) % 7 := by omega
  have ho_lt : (o : Int) < 7 := by omega
  have hw7 : (w.val : Int) < 7 := by exact_mod_cast w.isLt
  have hw0 : (0 : Int) ≤ (w.val : Int) := by positivity
  have hwd : ∀ i : Nat, weekday_of (d - o - 7 * i) = w := by
    intro i
    apply Fin.ext
    show ((d - (o : Int) - 7 * (i : Int) + 3) % 7).toNat = w.val
    have hemod := Int.emod_emod_of_dvd ((d + 3) - (w.val : Int)) (dvd_refl 7)
    omega
  have key : ∃ i : Nat, i ≤ cal.holidays.card ∧
      (d - (o : Int) - 7 * i) ∉ cal.holidays := by
    by_contra hc
    push_neg at hc
    have hmaps : ∀ i ∈ Finset.range (cal.holidays.card + 1),
        (fun i : Nat => d - (o : Int) - 7 * i) i ∈ cal.holidays := by
      intro i hi
      exact hc i (Nat.lt_succ_iff.mp (Finset.mem_range.mp hi))
    have hinj : Set.InjOn (fun i : Nat => d - (o : Int) - 7 * i)
        (Finset.range (cal.holidays.card + 1)) := by
      intro i _ j _ hij
      simp only at hij
      omega
    have := Finset.card_le_card_of_injOn _ hmaps hinj
    simp [Finset.card_range] at this
  obtain ⟨i, hiK, hihol⟩ := key
  refine ⟨o + 7 * i, ?_, ?_⟩
  · unfold search_fuel; omega
  · have harg : d - ((o + 7 * i : Nat) : Int) = d - o - 7 * i := by push_cast; ring
    rw [harg]
    unfold is_available
    simp [hihol, hwd i, hw]

theorem lt_next_available (cal : WorkCalendar) (d : Int) :
    d < cal.next_available d := by
  unfold next_available
  cases h : cal.search_up cal.search_fuel (d + 1) with
  | none => simp
  | some e =>
    obtain ⟨h1, _, _, _⟩ := search_up_sound h
    simpa using by omega

theorem prev_available_lt (cal : WorkCalendar) (d : Int) :
    cal.prev_available d < d := by
  unfold prev_available
  cases h : cal.search_down cal.search_fuel (d - 1) with
  | none => simp
  | some e =>
    obtain ⟨h1, _, _, _⟩ := search_down_sound h
    simpa using by omega

theorem next_available_spec (cal : WorkCalendar) (h : cal.Valid) (d : Int) :
    d < cal.next_available d ∧
      cal.is_available (cal.next_available d) = true ∧
      ∀ x, d < x → x < cal.next_available d → cal.is_available x = false := by
  obtain ⟨k, hk, hav⟩ := exists_available_up cal h (d + 1)
  have hsome := search_up_isSome hk hav
  obtain ⟨e, he⟩ := Option.isSome_iff_exists.mp hsome
  obtain ⟨h1, h2, h3, h4⟩ := search_up_sound he
  unfold next_available
  rw [he]
  simp only [Option.getD_some]
  exact ⟨by omega, h3, fun x hx1 hx2 => h4 x (by omega) hx2⟩

theorem prev_available_spec (cal : WorkCalendar) (h : cal.Valid) (d : Int) :
    cal.prev_available d < d ∧
      cal.is_available (cal.prev_available d) = true ∧
      ∀ x, cal.prev_available d < x → x < d → cal.is_available x = false := by
  obtain ⟨k, hk, hav⟩ := exists_available_down cal h (d - 1)
  have hsome := search_down_isSome hk hav
  obtain ⟨e, he⟩ := Option.isSome_iff_exists.mp hsome
  obtain ⟨h1, h2, h3, h4⟩ := search_down_sound he
  unfold prev_available
  rw [he]
  simp only [Option.getD_some]
  exact ⟨by omega, h3, fun x hx1 hx2 => h4 x hx1 (by omega)⟩

theorem count_available_days_of_lt {cal : WorkCalendar} {a b : Int} (h : b < a) :
    cal.count_available_days a b = 0 := by
  unfold count_available_days
  have h0 : (b - a + 1).toNat = 0 := by omega
  rw [h0]
  simp

theorem count_available_days_split {cal : WorkCalendar} {a b c : Int}
    (h1 : a ≤ b + 1) (h2 : b ≤ c) :
    cal.count_available_days a c =
      cal.count_available_days a b + cal.count_available_days (b + 1) c := by
  unfold count_available_days
  have hsum : (c - a + 1).toNat = (b - a + 1).toNat + (c - b).toNat := by omega
  rw [hsum, List.range_add, List.map_append, List.filter_append, List.length_append]
  have harg : ((List.range (c - b).toNat).map fun x => (b - a + 1).toNat + x).map
      (fun k : Nat => a + (k : Int)) =
      (List.range (c - (b + 1) + 1).toNat).map fun k : Nat => b + 1 + (k : Int) := by
    have hn : (c - b).toNat = (c - (b + 1) + 1).toNat := by omega
    rw [List.map_map, hn]
    apply List.map_congr_left
    intro x _
    simp only [Function.comp]
    push_cast
    omega
  rw [harg]
  push_cast
  ring

theorem count_available_days_self {cal : WorkCalendar} (a : Int) :
    cal.count_available_days a a = if cal.is_available a then 1 else 0 := by
  unfold count_available_days
  have h1 : (a - a + 1).toNat = 1 := by omega
  have h2 : List.range 1 = [0] := rfl
  rw [h1, h2]
  by_cases h : cal.is_available a <;> simp [List.filter, h]

theorem count_available_days_zero {cal : WorkCalendar} {a b : Int}
    (h : ∀ x, a ≤ x → x ≤ b → cal.is_available x = false) :
    cal.count_available_days a b = 0 := by
  unfold count_available_days
  simp only [Int.natCast_eq_zero]
  rw [List.length_eq_zero, List.filter_eq_nil_iff]
  intro d hd
  simp only [List.mem_map, List.mem_range] at hd
  obtain ⟨k, hk, rfl⟩ := hd
  simp only [Bool.not_eq_true]
  exact h (a + k) (by omega) (by omega)

theorem count_next_available {cal : WorkCalendar} (h : cal.Valid) (d : Int) :
    cal.count_available_days (d + 1) (cal.next_available d) = 1 := by
  obtain ⟨hlt, hav, hmin⟩ := next_available_spec cal h d
  rw [count_available_days_split (b := cal.next_available d - 1) (by omega) (by omega)]
  rw [count_available_days_zero (fun x hx1 hx2 => hmin x (by omega) (by omega))]
  have he : cal.next_available d - 1 + 1 = cal.next_available d := by omega
  rw [he, count_available_days_self, if_pos hav]
  norm_num

theorem le_iterate_next_available (cal : WorkCalendar) (d : Int) :
    ∀ m : Nat, d ≤ (cal.next_available)^[m] d := by
  intro m
  induction m generalizing d with
  | zero => simp
  | succ n ih =>
    rw [Function.iterate_succ_apply]
    exact le_trans (le_of_lt (lt_next_available cal d)) (ih (cal.next_available d))

theorem iterate_prev_available_le (cal : WorkCalendar) (d : Int) :
    ∀ m : Nat, (cal.prev_available)^[m] d ≤ d := by
  intro m
  induction m generalizing d with
  | zero => simp
  | succ n ih =>
    rw [Function.iterate_succ_apply]
    exact le_trans (ih (cal.prev_available d)) (le_of_lt (prev_available_lt cal d))

theorem count_iterate_next_available (cal : WorkCalendar) (h : cal.Valid) (d : Int) :
    ∀ m : Nat, cal.count_available_days (d + 1) ((cal.next_available)^[m] d) = m := by
  intro m
  induction m generalizing d with
  | zero =>
    rw [Function.iterate_zero_apply]
    exact count_available_days_of_lt (by omega)
  | succ n ih =>
    rw [Function.iterate_succ_apply]
    have hlt := lt_next_available cal d
    have hle := le_iterate_next_available cal (cal.next_available d) n
    rw [count_available_days_split (b := cal.next_available d) (by omega) hle]
    rw [count_next_available h d, ih (cal.next_available d)]
    push_cast
    ring

theorem iterate_next_available_lt (cal : WorkCalendar) (d : Int) {m : Nat}
    (hm : 0 < m) : d < (cal.next_available)^[m] d := by
  obtain ⟨n, rfl⟩ := Nat.exists_eq_succ_of_ne_zero (Nat.pos_iff_ne_zero.mp hm)
  rw [Function.iterate_succ_apply]
  exact lt_of_lt_of_le (lt_next_available cal d)
    (le_iterate_next_available cal (cal.next_available d) n)

theorem iterate_next_available_is_available (cal : WorkCalendar) (h : cal.Valid)
    (d : Int) {m : Nat} (hm : 0 < m) :
    cal.is_available ((cal.next_available)^[m] d) = true := by
  obtain ⟨n, rfl⟩ := Nat.exists_eq_succ_of_ne_zero (Nat.pos_iff_ne_zero.mp hm)
  rw [Function.iterate_succ_apply']
  exact (next_available_spec cal h _).2.1

/-- C7: `find_next_available(d, 0) = d`; for `n > 0` the result is strictly
after `d`, is available, and is where the n-th available day after `d`
lands (exactly `n` available days lie in `(d, result]`); with the default
calendar, `find_next_available(Mon 2025-01-06, 4) = Fri 2025-01-10`. -/
theorem find_next_available_spec (cal : WorkCalendar) (h : cal.Valid) (d n : Int) :
    cal.find_next_available d 0 = d ∧
    (0 < n →
      d < cal.find_next_available d n ∧
      cal.is_available (cal.find_next_available d n) = true ∧
      cal.count_available_days (d + 1) (cal.find_next_available d n) = n) ∧
    (WorkCalendar.with_year_range 2025 2025).find_next_available
      (days_from_civil 2025 1 6) 4 = days_from_civil 2025 1 10 := by
  refine ⟨rfl, ?_, by decide⟩
  intro hn
  unfold find_next_available
  have hm : 0 < n.toNat := by omega
  refine ⟨iterate_next_available_lt cal d hm,
    iterate_next_available_is_available cal h d hm, ?_⟩
  rw [count_iterate_next_available cal h d]
  omega

theorem find_next_available_spec_witness :
    (WorkCalendar.with_year_range 2025 2025).Valid ∧
    ((WorkCalendar.with_year_range 2025 2025).find_next_available 20094 0 = 20094 ∧
     (0 < (4 : Int) →
       20094 < (WorkCalendar.with_year_range 2025 2025).find_next_available 20094 4 ∧
       (WorkCalendar.with_year_range 2025 2025).is_available
         ((WorkCalendar.with_year_range 2025 2025).find_next_available 20094 4) = true ∧
       (WorkCalendar.with_year_range 2025 2025).count_available_days (20094 + 1)
         ((WorkCalendar.with_year_range 2025 2025).find_next_available 20094 4) = 4) ∧
     (WorkCalendar.with_year_range 2025 2025).find_next_available
       (days_from_civil 2025 1 6) 4 = days_from_civil 2025 1 10) :=
  ⟨by decide, find_next_available_spec (WorkCalendar.with_year_range 2025 2025)
    (by decide) 20094 4⟩

/-- C8: under the calendar invariant, `next_available(d)` is strictly
greater than `d`, is available, and no available date lies strictly
between `d` and it — it is the smallest available date after `d`. -/
theorem next_available_least (cal : WorkCalendar) (h : cal.Valid) (d : Int) :
    d < cal.next_available d ∧
      cal.is_available (cal.next_available d) = true ∧
      ∀ e, d < e → e < cal.next_available d → cal.is_available e = false :=
  next_available_spec cal h d

theorem next_available_least_witness :
    (WorkCalendar.with_year_range 2025 2025).Valid ∧
    (20092 < (WorkCalendar.with_year_range 2025 2025).next_available 20092 ∧
     (WorkCalendar.with_year_range 2025 2025).is_available
       ((WorkCalendar.with_year_range 2025 2025).next_available 20092) = true ∧
     ∀ e, 20092 < e → e < (WorkCalendar.with_year_range 2025 2025).next_available 20092 →
       (WorkCalendar.with_year_range 2025 2025).is_available e = false) :=
  ⟨by decide, next_available_least (WorkCalendar.with_year_range 2025 2025)
    (by decide) 20092⟩

/-- C9: converting a calendar to its canonical config and back is the
identity (total in both directions on calendars satisfying the documented
invariant that some weekday is working). -/
theorem calendar_config_roundtrip (cal : WorkCalendar) (h : cal.Valid) :
    WorkCalendar.from_config (WorkCalendar.to_config cal) = some cal := by
  obtain ⟨w, hw⟩ := exists_working_weekday h
  unfold to_config from_config
  have hmem : w ∈ (List.finRange 7).filter fun d => decide (d ∉ cal.non_working_days) := by
    simp [List.mem_filter, List.mem_finRange, hw]
  have hne : ((List.finRange 7).filter fun d =>
      decide (d ∉ cal.non_working_days)).isEmpty = false := by
    cases hcase : ((List.finRange 7).filter fun d =>
        decide (d ∉ cal.non_working_days)).isEmpty
    · rfl
    · rw [List.isEmpty_iff] at hcase
      rw [hcase] at hmem
      simp at hmem
  simp only [hne, Bool.false_eq_true, if_false, Option.some.injEq]
  have hhol : (Finset.sort (· ≤ ·) cal.holidays).toFinset = cal.holidays :=
    Finset.sort_toFinset _ _
  have hnw : (Finset.univ.filter fun d : Fin 7 =>
      d ∉ (List.finRange 7).filter fun e => decide (e ∉ cal.non_working_days)) =
      cal.non_working_days := by
    ext d
    simp [List.mem_filter, List.mem_finRange]
  cases cal
  simp_all

theorem calendar_config_roundtrip_witness :
    (WorkCalendar.with_year_range 2025 2025).Valid ∧
    WorkCalendar.from_config
      (WorkCalendar.to_config (WorkCalendar.with_year_range 2025 2025)) =
      some (WorkCalendar.with_year_range 2025 2025) :=
  ⟨by decide, calendar_config_roundtrip (WorkCalendar.with_year_range 2025 2025)
    (by decide)⟩

end WorkCalendar

/-! ### Validator theorems -/

namespace ScheduleCore

theorem validate_rationales_ok {tid : Int} :
    ∀ {items : List RationaleItem} {total : F64} {seen : List Int},
      validate_rationales tid items total seen = Except.ok () →
      (∀ r ∈ items, r.weight.is_finite = true ∧ r.weight.lt (F64.fin 0) = false) ∧
      (items.map fun r => r.id).Nodup ∧ (∀ r ∈ items, r.id ∉ seen) ∧
      approx_equal (items.foldl (fun acc r => acc + r.weight) total) (F64.fin 1) = true := by
  intro items
  induction items with
  | nil =>
    intro total seen h
    unfold validate_rationales at h
    refine ⟨by simp, by simp, by simp, ?_⟩
    by_cases ha : approx_equal total (F64.fin 1) <;> simp_all
  | cons r rest ih =>
    intro total seen h
    unfold validate_rationales at h
    split_ifs at h with hif1 hif2 hif3
    have h1 : r.weight.is_finite = true := by simpa using hif1
    have h2 : r.weight.lt (F64.fin 0) = false := by simpa using hif2
    obtain ⟨hfin, hnodup, hseen, hsum⟩ := ih h
    refine ⟨?_, ?_, ?_, ?_⟩
    · intro r' hr'
      rcases List.mem_cons.mp hr' with rfl | hmem
      · exact ⟨h1, h2⟩
      · exact hfin r' hmem
    · refine List.Nodup.cons ?_ hnodup
      intro hmem
      obtain ⟨r', hr', hid⟩ := List.mem_map.mp hmem
      exact (hseen r' hr') (hid ▸ List.mem_cons_self r.id seen)
    · intro r' hr'
      rcases List.mem_cons.mp hr' with rfl | hmem
      · exact hif3
      · intro hc
        exact (hseen r' hmem) (List.mem_cons_of_mem _ hc)
    · simpa using hsum

theorem bnot_eq_true_of_not {x : Bool} (h : ¬((!x) = true)) : x = true := by
  cases x <;> simp_all

theorem validate_task_ok_parts {t : Task} (h : validate_task t = Except.ok ()) :
    validate_progress t = Except.ok () ∧
    ∀ q : ℚ, t.percent_complete = some (F64.fin q) → -EPSILON ≤ q ∧ q ≤ 1 + EPSILON := by
  unfold validate_task at h
  split_ifs at h with hd
  cases hpc : t.percent_complete with
  | none =>
    rw [hpc] at h
    simp only at h
    refine ⟨?_, ?_⟩
    · cases hvp : validate_progress t with
      | error e => rw [hvp] at h; exact absurd h (by simp)
      | ok u => rfl
    · intro q hq
      exact absurd hq (by simp)
  | some p =>
    rw [hpc] at h
    simp only at h
    split_ifs at h with hrange
    refine ⟨?_, ?_⟩
    · cases hvp : validate_progress t with
      | error e => rw [hvp] at h; exact absurd h (by simp)
      | ok u => rfl
    · intro q hq
      have hpq : p = F64.fin q := Option.some.inj hq
      subst hpq
      simp only [F64.is_finite, F64.lt, Bool.not_true, Bool.false_or,
        Bool.or_eq_true, decide_eq_true_eq, not_or] at hrange
      constructor
      · linarith [not_lt.mp hrange.1]
      · linarith [not_lt.mp hrange.2]

theorem validate_progress_ok_variant {t : Task}
    (h : validate_progress t = Except.ok ()) :
    (∀ q : ℚ, t.percent_complete = some (F64.fin q) →
      (t.progress_measurement = ProgressMeasurement.zero_one_hundred →
        |q - 0| ≤ EPSILON ∨ |q - 1| ≤ EPSILON) ∧
      (t.progress_measurement = ProgressMeasurement.fifty_fifty →
        |q - 0| ≤ EPSILON ∨ |q - 1/2| ≤ EPSILON ∨ |q - 1| ≤ EPSILON) ∧
      ((t.progress_measurement = ProgressMeasurement.twenty_five_seventy_five ∨
        t.progress_measurement = ProgressMeasurement.seventy_five_twenty_five) →
        |q - 0| ≤ EPSILON ∨ |q - 1/4| ≤ EPSILON ∨ |q - 3/4| ≤ EPSILON ∨
          |q - 1| ≤ EPSILON)) ∧
    (t.progress_measurement = ProgressMeasurement.pre_defined_rationale →
      t.pre_defined_rationale ≠ [] ∧
      validate_rationales t.id t.pre_defined_rationale (F64.fin 0) [] =
        Except.ok ()) := by
  unfold validate_progress at h
  cases hm : t.progress_measurement <;> rw [hm] at h <;> simp only at h
  case percent_complete =>
    refine ⟨fun q hq => ⟨?_, ?_, ?_⟩, ?_⟩ <;> intro hc <;> simp_all
  case zero_one_hundred =>
    refine ⟨fun q hq => ⟨?_, by simp [hm], by simp [hm]⟩, by simp [hm]⟩
    intro _
    rw [hq] at h
    simp only at h
    split_ifs at h with hcond
    have hor : (approx_equal (F64.fin q) (F64.fin 0) ||
        approx_equal (F64.fin q) (F64.fin 1)) = true := bnot_eq_true_of_not hcond
    simpa only [approx_equal, Bool.or_eq_true, decide_eq_true_eq] using hor
  case fifty_fifty =>
    refine ⟨fun q hq => ⟨by simp [hm], ?_, by simp [hm]⟩, by simp [hm]⟩
    intro _
    rw [hq] at h
    simp only at h
    split_ifs at h with hcond
    have hany : ([F64.fin 0, F64.fin (1/2), F64.fin 1].any
        fun v => approx_equal v (F64.fin q)) = true := bnot_eq_true_of_not hcond
    simp only [List.any_cons, List.any_nil, Bool.or_eq_true, Bool.or_false,
      approx_equal, decide_eq_true_eq] at hany
    rcases hany with hc | hc | hc
    · left; rw [abs_sub_comm] at hc; exact hc
    · right; left; rw [abs_sub_comm] at hc; exact hc
    · right; right; rw [abs_sub_comm] at hc; exact hc
  case twenty_five_seventy_five =>
    refine ⟨fun q hq => ⟨by simp [hm], by simp [hm], ?_⟩, by simp [hm]⟩
    intro _
    rw [hq] at h
    simp only at h
    split_ifs at h with hcond
    have hany : ([F64.fin 0, F64.fin (1/4), F64.fin (3/4), F64.fin 1].any
        fun v => approx_equal v (F64.fin q)) = true := bnot_eq_true_of_not hcond
    simp only [List.any_cons, List.any_nil, Bool.or_eq_true, Bool.or_false,
      approx_equal, decide_eq_true_eq] at hany
    rcases hany with hc | hc | hc | hc
    · left; rw [abs_sub_comm] at hc; exact hc
    · right; left; rw [abs_sub_comm] at hc; exact hc
    · right; right; left; rw [abs_sub_comm] at hc; exact hc
    · right; right; right; rw [abs_sub_comm] at hc; exact hc
  case seventy_five_twenty_five =>
    refine ⟨fun q hq => ⟨by simp [hm], by simp [hm], ?_⟩, by simp [hm]⟩
    intro _
    rw [hq] at h
    simp only at h
    split_ifs at h with hcond
    have hany : ([F64.fin 0, F64.fin (1/4), F64.fin (3/4), F64.fin 1].any
        fun v => approx_equal v (F64.fin q)) = true := bnot_eq_true_of_not hcond
    simp only [List.any_cons, List.any_nil, Bool.or_eq_true, Bool.or_false,
      approx_equal, decide_eq_true_eq] at hany
    rcases hany with hc | hc | hc | hc
    · left; rw [abs_sub_comm] at hc; exact hc
    · right; left; rw [abs_sub_comm] at hc; exact hc
    · right; right; left; rw [abs_sub_comm] at hc; exact hc
    · right; right; right; rw [abs_sub_comm] at hc; exact hc
  case pre_defined_rationale =>
    refine ⟨fun q hq => ⟨by simp [hm], by simp [hm], by simp [hm]⟩, fun _ => ?_⟩
    split_ifs at h with hemp
    exact ⟨by simpa using hemp, h⟩

/-- C6 is false as stated: `validate_task` accepts a `PercentComplete`
task whose percent 1 + 5e-7 lies outside [0, 1], because every check
carries the 1e-6 tolerance. -/
theorem validate_task_epsilon_cex :
    validate_task overflow_task = Except.ok () ∧
    overflow_task.progress_measurement = ProgressMeasurement.percent_complete ∧
    overflow_task.percent_complete = some (F64.fin (1 + 1/2000000)) ∧
    ¬((1 + 1/2000000 : ℚ) ≤ 1) := by
  refine ⟨?_, rfl, rfl, by norm_num⟩
  simp only [validate_task, validate_progress, validate_allocations,
    overflow_task, Task.new, F64.lt, F64.is_finite, approx_equal, EPSILON]
  norm_num

/-- C6 (amended): the allowed sets carry the validator's 1e-6 tolerance.
`validate_task` fails for every task whose percent_complete lies outside
the tolerant allowed set of its variant (within 1e-6 of {0,1} for
ZeroOneHundred, of {0,0.5,1} for FiftyFifty, of {0,0.25,0.75,1} for the
25/75 variants, and inside [-1e-6, 1+1e-6] for PercentComplete); and for
PreDefinedRationale it fails whenever the rationale list is empty, a
weight is non-finite or negative, a rationale id repeats, or the weight
sum is not within 1e-6 of 1. -/
theorem validate_task_rejects_out_of_tolerance (t : Task) :
    (∀ q : ℚ, t.percent_complete = some (F64.fin q) →
      ((t.progress_measurement = ProgressMeasurement.zero_one_hundred ∧
          ¬(|q - 0| ≤ EPSILON) ∧ ¬(|q - 1| ≤ EPSILON)) ∨
       (t.progress_measurement = ProgressMeasurement.fifty_fifty ∧
          ¬(|q - 0| ≤ EPSILON) ∧ ¬(|q - 1/2| ≤ EPSILON) ∧ ¬(|q - 1| ≤ EPSILON)) ∨
       ((t.progress_measurement = ProgressMeasurement.twenty_five_seventy_five ∨
         t.progress_measurement = ProgressMeasurement.seventy_five_twenty_five) ∧
          ¬(|q - 0| ≤ EPSILON) ∧ ¬(|q - 1/4| ≤ EPSILON) ∧
          ¬(|q - 3/4| ≤ EPSILON) ∧ ¬(|q - 1| ≤ EPSILON)) ∨
       (t.progress_measurement = ProgressMeasurement.percent_complete ∧
          (q < -EPSILON ∨ 1 + EPSILON < q))) →
      ∃ e, validate_task t = Except.error e) ∧
    (t.progress_measurement = ProgressMeasurement.pre_defined_rationale →
      (t.pre_defined_rationale = [] ∨
       (∃ r ∈ t.pre_defined_rationale, r.weight.is_finite = false) ∨
       (∃ r ∈ t.pre_defined_rationale, r.weight.lt (F64.fin 0) = true) ∨
       ¬(t.pre_defined_rationale.map fun r => r.id).Nodup ∨
       approx_equal (weight_total t.pre_defined_rationale) (F64.fin 1) = false) →
      ∃ e, validate_task t = Except.error e) := by
  constructor
  · intro q hq hbad
    cases hv : validate_task t with
    | error e => exact ⟨e, rfl⟩
    | ok u =>
      exfalso
      cases u
      obtain ⟨hvp, hrange⟩ := validate_task_ok_parts hv
      obtain ⟨hvar, _⟩ := validate_progress_ok_variant hvp
      have hb := hrange q hq
      obtain ⟨h01, h50, h2575⟩ := hvar q hq
      rcases hbad with ⟨hm, c0, c1⟩ | ⟨hm, c0, c5, c1⟩ | ⟨hm, c0, c25, c75, c1⟩ |
        ⟨hm, hout⟩
      · rcases h01 hm with hc | hc
        · exact c0 hc
        · exact c1 hc
      · rcases h50 hm with hc | hc | hc
        · exact c0 hc
        · exact c5 hc
        · exact c1 hc
      · rcases h2575 hm with hc | hc | hc | hc
        · exact c0 hc
        · exact c25 hc
        · exact c75 hc
        · exact c1 hc
      · rcases hout with hlo | hhi
        · linarith [hb.1]
        · linarith [hb.2]
  · intro hm hbad
    cases hv : validate_task t with
    | error e => exact ⟨e, rfl⟩
    | ok u =>
      exfalso
      cases u
      obtain ⟨hvp, _⟩ := validate_task_ok_parts hv
      obtain ⟨_, hpre⟩ := validate_progress_ok_variant hvp
      obtain ⟨hne, hr⟩ := hpre hm
      obtain ⟨hfin, hnodup, _, hsum⟩ := validate_rationales_ok hr
      rcases hbad with he | ⟨r, hrmem, hnf⟩ | ⟨r, hrmem, hneg⟩ | hnd | hsb
      · exact hne he
      · have := (hfin r hrmem).1
        rw [hnf] at this
        exact absurd this (by simp)
      · have := (hfin r hrmem).2
        rw [hneg] at this
        exact absurd this (by simp)
      · exact hnd hnodup
      · unfold weight_total at hsb
        rw [hsum] at hsb
        exact absurd hsb (by simp)

theorem validate_task_rejects_out_of_tolerance_witness :
    (∃ e, validate_task bad_fifty_task = Except.error e) ∧
    (∃ e, validate_task empty_rationale_task = Except.error e) := by
  constructor
  · refine (validate_task_rejects_out_of_tolerance bad_fifty_task).1 (3/10) rfl ?_
    right
    left
    refine ⟨rfl, ?_, ?_, ?_⟩ <;> rw [EPSILON] <;> intro hc <;>
      rw [abs_le] at hc <;> norm_num at hc
  · exact (validate_task_rejects_out_of_tolerance empty_rationale_task).2 rfl
      (Or.inl rfl)

/-! ### Cycle detection (C1) -/

theorem row_unique {tasks : List Task} (hN : (task_ids tasks).Nodup)
    {t t' : Task} (ht : t ∈ tasks) (ht' : t' ∈ tasks) (hid : t.id = t'.id) :
    t = t' :=
  List.inj_on_of_nodup_map hN ht ht' hid

theorem chain_in_edges {R : Int → Int → Prop} :
    ∀ (x : Int) (ys : List Int), List.Chain R x ys →
      ∀ v ∈ ys, ∃ u ∈ x :: ys, R u v := by
  intro x ys
  induction ys generalizing x with
  | nil => intro _ v hv; simp at hv
  | cons y rest ih =>
    intro hchain v hv
    rcases List.chain_cons.mp hchain with ⟨hxy, hrest⟩
    rcases List.mem_cons.mp hv with rfl | hmem
    · exact ⟨x, List.mem_cons_self x _, hxy⟩
    · obtain ⟨u, hu, hR⟩ := ih y hrest v hmem
      exact ⟨u, List.mem_cons_of_mem x hu, hR⟩

theorem cycle_gives_closed_set {tasks : List Task} (h : has_cycle tasks) :
    ∃ C : List Int, C ≠ [] ∧ ∀ v ∈ C, ∃ u ∈ C, dag_edge tasks u v := by
  obtain ⟨a, l, hchain⟩ := h
  refine ⟨a :: l, by simp, ?_⟩
  intro v hv
  have hvmem : v ∈ l ++ [a] := by
    rcases List.mem_cons.mp hv with rfl | hmem
    · exact List.mem_append_right l (List.mem_singleton_self v)
    · exact List.mem_append_left [a] hmem
  obtain ⟨u, hu, hR⟩ := chain_in_edges a (l ++ [a]) hchain v hvmem
  refine ⟨u, ?_, hR⟩
  rcases List.mem_cons.mp hu with rfl | hmem
  · exact List.mem_cons_self u l
  · rcases List.mem_append.mp hmem with h1 | h1
    · exact List.mem_cons_of_mem a h1
    · rw [List.mem_singleton.mp h1]
      exact List.mem_cons_self a l

theorem mem_task_ids {tasks : List Task} {v : Int} :
    v ∈ task_ids tasks ↔ ∃ r ∈ tasks, r.id = v := by
  unfold task_ids
  simp [List.mem_map, eq_comm]

theorem topo_go_stuck {rows0 : List Task} (hN : (task_ids rows0).Nodup)
    {C : List Int} (hCne : C ≠ [])
    (hCedge : ∀ v ∈ C, ∃ u ∈ C, dag_edge rows0 u v) :
    ∀ (fuel : Nat) (rows : List Task), rows.Sublist rows0 →
      (∀ v ∈ C, v ∈ task_ids rows) → topo_go fuel rows = none := by
  have hrows_ne : ∀ rows : List Task, (∀ v ∈ C, v ∈ task_ids rows) →
      rows.isEmpty = false := by
    intro rows hCin
    obtain ⟨v, hv⟩ := List.exists_mem_of_ne_nil C hCne
    have := hCin v hv
    cases rows with
    | nil => simp [task_ids] at this
    | cons _ _ => rfl
  intro fuel
  induction fuel with
  | zero =>
    intro rows hsub hCin
    unfold topo_go
    rw [hrows_ne rows hCin]
    simp
  | succ n ih =>
    intro rows hsub hCin
    unfold topo_go
    rw [hrows_ne rows hCin]
    simp only [Bool.false_eq_true, if_false]
    cases hfind : rows.find? (fun t => removable t rows) with
    | none => rfl
    | some t =>
      have htmem : t ∈ rows := List.mem_of_find?_eq_some hfind
      have hrem : removable t rows = true := by
        have := List.find?_some hfind
        simpa using this
      have htid : t.id ∉ C := by
        intro hidC
        obtain ⟨u, huC, hedge⟩ := hCedge t.id hidC
        obtain ⟨huids, t', ht'mem, ht'id, hupred⟩ := hedge
        have ht'eq : t' = t :=
          row_unique hN ht'mem (hsub.subset htmem) ht'id
        obtain ⟨r, hr, hrid⟩ := mem_task_ids.mp (hCin u huC)
        have hremP : ∀ p ∈ t.predecessors, ∀ r ∈ rows, r.id ≠ p := by
          simpa [removable] using hrem
        exact (hremP u (ht'eq ▸ hupred) r hr) hrid
      have hsub2 : (rows.erase t).Sublist rows0 :=
        (List.erase_sublist t rows).trans hsub
      have hCin2 : ∀ v ∈ C, v ∈ task_ids (rows.erase t) := by
        intro v hv
        obtain ⟨r, hr, hrid⟩ := mem_task_ids.mp (hCin v hv)
        have hrne : r ≠ t := by
          intro he
          subst he
          exact htid (hrid ▸ hv)
        exact mem_task_ids.mpr ⟨r, (List.mem_erase_of_ne hrne).mpr hr, hrid⟩
      have hrec := ih (rows.erase t) hsub2 hCin2
      simp [hrec]

theorem toposort_none_of_cycle {tasks : List Task}
    (hN : (task_ids tasks).Nodup) (hcyc : has_cycle tasks) :
    toposort tasks = none := by
  obtain ⟨C, hCne, hCedge⟩ := cycle_gives_closed_set hcyc
  have hCin : ∀ v ∈ C, v ∈ task_ids tasks := by
    intro v hv
    obtain ⟨u, _, _, t', ht', hid, _⟩ := hCedge v hv
    exact mem_task_ids.mpr ⟨t', ht', hid⟩
  exact topo_go_stuck hN hCne hCedge tasks.length tasks (List.Sublist.refl _) hCin

/-- C1: on a schedule whose predecessor references form a cycle (with the
documented invariants: unique ids, ordered metadata dates), `refresh`
returns the cycle-detection error and the late_start / late_finish
columns keep the values they had before the call. -/
theorem refresh_cycle_error (s : Schedule)
    (hN : (task_ids s.tasks).Nodup)
    (hmd : s.metadata.project_start_date ≤ s.metadata.project_end_date)
    (hcyc : has_cycle s.tasks) :
    (Schedule.refresh s).2 = Except.error ComputeError.cycle_detected ∧
    (Schedule.refresh s).1.tasks.map (fun t => t.late_start) =
      s.tasks.map (fun t => t.late_start) ∧
    (Schedule.refresh s).1.tasks.map (fun t => t.late_finish) =
      s.tasks.map (fun t => t.late_finish) := by
  have htopo : toposort s.tasks = none := toposort_none_of_cycle hN hcyc
  have hne : s.tasks.isEmpty = false := by
    obtain ⟨C, hCne, hCedge⟩ := cycle_gives_closed_set hcyc
    obtain ⟨v, hv⟩ := List.exists_mem_of_ne_nil C hCne
    obtain ⟨u, _, _, t', ht', _, _⟩ := hCedge v hv
    cases hts : s.tasks with
    | nil => rw [hts] at ht'; simp at ht'
    | cons _ _ => rfl
  have hfwd : Schedule.forward_pass s = Except.error ComputeError.cycle_detected := by
    unfold Schedule.forward_pass
    rw [hne]
    simp only [Bool.false_eq_true, if_false]
    unfold Schedule.forward_results
    rw [htopo]
  unfold Schedule.refresh
  rw [if_neg (not_lt.mpr hmd), hfwd]
  exact ⟨rfl, rfl, rfl⟩

theorem refresh_cycle_error_witness :
    (task_ids cyclic_schedule.tasks).Nodup ∧
    cyclic_schedule.metadata.project_start_date ≤
      cyclic_schedule.metadata.project_end_date ∧
    has_cycle cyclic_schedule.tasks ∧
    ((Schedule.refresh cyclic_schedule).2 =
      Except.error ComputeError.cycle_detected ∧
     (Schedule.refresh cyclic_schedule).1.tasks.map (fun t => t.late_start) =
       cyclic_schedule.tasks.map (fun t => t.late_start) ∧
     (Schedule.refresh cyclic_schedule).1.tasks.map (fun t => t.late_finish) =
       cyclic_schedule.tasks.map (fun t => t.late_finish)) :=
  ⟨by decide, by decide,
    ⟨1, [2], List.Chain.cons (by decide) (List.Chain.cons (by decide)
      List.Chain.nil)⟩,
    refresh_cycle_error cyclic_schedule (by decide) (by decide)
      ⟨1, [2], List.Chain.cons (by decide) (List.Chain.cons (by decide)
        List.Chain.nil)⟩⟩

/-! ### Pipeline inversion lemmas -/

theorem foldl_inv {α β : Type} {step : List β → α → List β} {P : β → Prop}
    (hstep : ∀ acc x e, e ∈ step acc x → e ∈ acc ∨ P e) :
    ∀ (l : List α) (acc : List β), (∀ e ∈ acc, P e) →
      ∀ e ∈ l.foldl step acc, P e := by
  intro l
  induction l with
  | nil => intro acc hacc e he; exact hacc e he
  | cons x rest ih =>
    intro acc hacc e he
    refine ih (step acc x) ?_ e he
    intro e' he'
    rcases hstep acc x e' he' with h | h
    · exact hacc e' h
    · exact h

theorem forward_results_inv {s : Schedule} {results : List (Int × Int × Int)}
    (h : Schedule.forward_results s = some results) :
    ∀ e ∈ results,
      e.2.2 = s.calendar.find_next_available e.2.1 (duration_of s.tasks e.1) := by
  unfold Schedule.forward_results at h
  cases htopo : toposort s.tasks with
  | none => rw [htopo] at h; simp at h
  | some order =>
    rw [htopo] at h
    simp only [Option.some.injEq] at h
    subst h
    refine foldl_inv ?_ order [] (by simp)
    intro acc id e he
    simp only [List.mem_append, List.mem_singleton] at he
    rcases he with h1 | h1
    · exact Or.inl h1
    · subst h1; exact Or.inr rfl

theorem backward_results_inv {s : Schedule} {results : List (Int × Int × Int)}
    (h : Schedule.backward_results s = some results) :
    ∀ e ∈ results,
      e.2.1 = s.calendar.find_prev_available e.2.2 (duration_of s.tasks e.1) := by
  unfold Schedule.backward_results at h
  cases htopo : toposort s.tasks with
  | none => rw [htopo] at h; simp at h
  | some order =>
    rw [htopo] at h
    simp only [Option.some.injEq] at h
    subst h
    refine foldl_inv ?_ order.reverse [] (by simp)
    intro acc id e he
    unfold Schedule.backward_step at he
    simp only [List.mem_append, List.mem_singleton] at he
    rcases he with h1 | h1
    · exact Or.inl h1
    · subst h1; exact Or.inr rfl

theorem forward_pass_ok_tasks {s s1 : Schedule}
    (h : Schedule.forward_pass s = Except.ok s1) :
    s1.metadata = s.metadata ∧ s1.calendar = s.calendar ∧
    ∃ results, Schedule.forward_results s = some results ∧
      s1.tasks = s.tasks.map (Schedule.forward_persist s results) := by
  unfold Schedule.forward_pass at h
  by_cases hemp : s.tasks.isEmpty
  · rw [if_pos hemp] at h
    have hs1 : s1 = s := by
      have := Except.ok.inj h
      exact this.symm
    have hnil : s.tasks = [] := List.isEmpty_iff.mp hemp
    subst hs1
    refine ⟨rfl, rfl, [], ?_, by rw [hnil]; rfl⟩
    unfold Schedule.forward_results
    rw [hnil]
    rfl
  · rw [if_neg hemp] at h
    cases hres : Schedule.forward_results s with
    | none => rw [hres] at h; exact absurd h (by simp)
    | some results =>
      rw [hres] at h
      have hs1 := (Except.ok.inj h).symm
      subst hs1
      exact ⟨rfl, rfl, results, rfl, rfl⟩

theorem backward_pass_ok_tasks {s s1 : Schedule}
    (h : Schedule.backward_pass s = Except.ok s1) :
    s1.metadata = s.metadata ∧ s1.calendar = s.calendar ∧
    (s.tasks = [] ∧ s1 = s ∨
     ∃ results, Schedule.backward_results s = some results ∧
       s1.tasks = (s.tasks.map (Schedule.backward_persist results)).map
         (Schedule.float_update (s.tasks.map (Schedule.backward_persist results)))) := by
  unfold Schedule.backward_pass at h
  by_cases hemp : s.tasks.isEmpty
  · rw [if_pos hemp] at h
    have hs1 : s1 = s := (Except.ok.inj h).symm
    subst hs1
    exact ⟨rfl, rfl, Or.inl ⟨List.isEmpty_iff.mp hemp, rfl⟩⟩
  · rw [if_neg hemp] at h
    cases hres : Schedule.backward_results s with
    | none => rw [hres] at h; exact absurd h (by simp)
    | some results =>
      rw [hres] at h
      have hs1 := (Except.ok.inj h).symm
      subst hs1
      exact ⟨rfl, rfl, Or.inr ⟨results, rfl, rfl⟩⟩

theorem refresh_ok_inversion {s s' : Schedule} {sum : RefreshSummary}
    (h : Schedule.refresh s = (s', Except.ok sum)) :
    ∃ s1 s2, Schedule.forward_pass s = Except.ok s1 ∧
      Schedule.backward_pass s1 = Except.ok s2 ∧
      s' = Schedule.set_successors_column (Schedule.set_schedule_variance s2) := by
  unfold Schedule.refresh at h
  split_ifs at h with hmd
  · exact absurd (congrArg Prod.snd h) (by simp)
  cases hf : Schedule.forward_pass s with
  | error e =>
    rw [hf] at h
    simp only at h
    exact absurd (congrArg Prod.snd h) (by simp)
  | ok s1 =>
    rw [hf] at h
    simp only at h
    cases hh : Schedule.validate_project_horizon s1 with
    | error e =>
      rw [hh] at h
      simp only at h
      exact absurd (congrArg Prod.snd h) (by simp)
    | ok u =>
      cases u
      rw [hh] at h
      simp only at h
      cases hb : Schedule.backward_pass s1 with
      | error e =>
        rw [hb] at h
        simp only at h
        exact absurd (congrArg Prod.snd h) (by simp)
      | ok s2 =>
        rw [hb] at h
        simp only at h
        exact ⟨s1, s2, rfl, hb, (congrArg Prod.fst h).symm⟩

theorem lookup_esef_some {results : List (Int × Int × Int)} {id : Int}
    {p : Int × Int} (h : Schedule.lookup_esef results id = some p) :
    ∃ r ∈ results, r.1 = id ∧ r.2.1 = p.1 ∧ r.2.2 = p.2 := by
  unfold Schedule.lookup_esef at h
  cases hf : results.find? (fun r => r.1 = id) with
  | none => rw [hf] at h; exact absurd h (by simp)
  | some r =>
    rw [hf] at h
    simp only [Option.map_some', Option.some.injEq] at h
    refine ⟨r, List.mem_of_find?_eq_some hf,
      by simpa using List.find?_some hf, ?_, ?_⟩
    · rw [← h]
    · rw [← h]

theorem forward_persist_es_ef {s : Schedule} {results : List (Int × Int × Int)}
    (hres : ∀ e ∈ results,
      e.2.2 = s.calendar.find_next_available e.2.1 (duration_of s.tasks e.1))
    (t : Task) :
    ∃ es d, (Schedule.forward_persist s results t).early_start = some es ∧
      (Schedule.forward_persist s results t).early_finish =
        some (s.calendar.find_next_available es d) := by
  unfold Schedule.forward_persist
  cases h : Schedule.lookup_esef results t.id with
  | none =>
    exact ⟨(Schedule.forward_fallback s results t).1, t.duration_days, rfl, rfl⟩
  | some p =>
    obtain ⟨es, ef⟩ := p
    obtain ⟨r, hrmem, hrid, hr1, hr2⟩ := lookup_esef_some h
    have hr1' : r.2.1 = es := hr1
    have hr2' : r.2.2 = ef := hr2
    refine ⟨es, duration_of s.tasks r.1, rfl, ?_⟩
    have hef := hres r hrmem
    rw [hr1'] at hef
    rw [← hr2', hef]

theorem forward_persist_preserves (s : Schedule)
    (results : List (Int × Int × Int)) (t : Task) :
    (Schedule.forward_persist s results t).id = t.id ∧
    (Schedule.forward_persist s results t).baseline_start = t.baseline_start ∧
    (Schedule.forward_persist s results t).baseline_finish = t.baseline_finish ∧
    (Schedule.forward_persist s results t).actual_start = t.actual_start ∧
    (Schedule.forward_persist s results t).actual_finish = t.actual_finish ∧
    (Schedule.forward_persist s results t).late_start = t.late_start ∧
    (Schedule.forward_persist s results t).late_finish = t.late_finish := by
  unfold Schedule.forward_persist
  cases h : Schedule.lookup_esef results t.id with
  | none => exact ⟨rfl, rfl, rfl, rfl, rfl, rfl, rfl⟩
  | some p =>
    obtain ⟨es, ef⟩ := p
    exact ⟨rfl, rfl, rfl, rfl, rfl, rfl, rfl⟩

theorem backward_persist_shape {s : Schedule} {results : List (Int × Int × Int)}
    (hres : ∀ e ∈ results,
      e.2.1 = s.calendar.find_prev_available e.2.2 (duration_of s.tasks e.1))
    (t : Task) :
    (∃ lf d, (Schedule.backward_persist results t).late_start =
        some (s.calendar.find_prev_available lf d) ∧
      (Schedule.backward_persist results t).late_finish = some lf) ∨
    ((Schedule.backward_persist results t).late_start = t.early_start ∧
     (Schedule.backward_persist results t).late_finish = t.early_finish) := by
  unfold Schedule.backward_persist
  cases h : Schedule.lookup_esef results t.id with
  | none => exact Or.inr ⟨rfl, rfl⟩
  | some p =>
    obtain ⟨ls, lf⟩ := p
    obtain ⟨r, hrmem, hrid, hr1, hr2⟩ := lookup_esef_some h
    have hr1' : r.2.1 = ls := hr1
    have hr2' : r.2.2 = lf := hr2
    left
    refine ⟨lf, duration_of s.tasks r.1, ?_, rfl⟩
    have hls := hres r hrmem
    rw [hr2'] at hls
    rw [← hr1', hls]

theorem backward_persist_preserves (results : List (Int × Int × Int)) (t : Task) :
    (Schedule.backward_persist results t).id = t.id ∧
    (Schedule.backward_persist results t).early_start = t.early_start ∧
    (Schedule.backward_persist results t).early_finish = t.early_finish ∧
    (Schedule.backward_persist results t).baseline_start = t.baseline_start ∧
    (Schedule.backward_persist results t).baseline_finish = t.baseline_finish ∧
    (Schedule.backward_persist results t).actual_start = t.actual_start ∧
    (Schedule.backward_persist results t).actual_finish = t.actual_finish := by
  unfold Schedule.backward_persist
  cases h : Schedule.lookup_esef results t.id with
  | none => exact ⟨rfl, rfl, rfl, rfl, rfl, rfl, rfl⟩
  | some p =>
    obtain ⟨ls, lf⟩ := p
    exact ⟨rfl, rfl, rfl, rfl, rfl, rfl, rfl⟩

theorem float_update_preserves (tasks1 : List Task) (t : Task) :
    (Schedule.float_update tasks1 t).id = t.id ∧
    (Schedule.float_update tasks1 t).early_start = t.early_start ∧
    (Schedule.float_update tasks1 t).early_finish = t.early_finish ∧
    (Schedule.float_update tasks1 t).late_start = t.late_start ∧
    (Schedule.float_update tasks1 t).late_finish = t.late_finish ∧
    (Schedule.float_update tasks1 t).baseline_start = t.baseline_start ∧
    (Schedule.float_update tasks1 t).baseline_finish = t.baseline_finish ∧
    (Schedule.float_update tasks1 t).actual_start = t.actual_start ∧
    (Schedule.float_update tasks1 t).actual_finish = t.actual_finish :=
  ⟨rfl, rfl, rfl, rfl, rfl, rfl, rfl, rfl, rfl⟩

theorem set_schedule_variance_tasks (s : Schedule) :
    (Schedule.set_schedule_variance s).tasks =
      s.tasks.map fun t =>
        { t with schedule_variance_days := Schedule.variance_of s.calendar t } :=
  rfl

theorem set_successors_column_tasks (s : Schedule) :
    (Schedule.set_successors_column s).tasks =
      s.tasks.map fun t =>
        { t with successors := (Schedule.dedup_consecutive (List.insertionSort (· ≤ ·)
            ((s.tasks.filter fun u => t.id ∈ u.predecessors).map fun u => u.id))) } :=
  rfl

/-- C3 is false as stated: on a schedule whose project start is a
Saturday (2025-01-04, epoch day 20092) with the zero-duration chain
1 → 2, `refresh` succeeds while task 1 ends with early_start 20092 but
late_start 20091 and early_finish 20092 but late_finish 20091 — both
`ES ≤ LS` and `EF ≤ LF` fail. -/
theorem refresh_float_inversion_cex :
    (Schedule.refresh weekend_start_schedule).2.isOk = true ∧
    ((Schedule.refresh weekend_start_schedule).1.tasks.map fun t =>
      (t.early_start, t.early_finish, t.late_start, t.late_finish)) =
      [(some 20092, some 20092, some 20091, some 20091),
       (some 20094, some 20094, some 20094, some 20094)] ∧
    ¬((20092 : Int) ≤ 20091) := by
  exact ⟨by decide, by decide, by decide⟩

/-- C3 (amended): after a successful `refresh`, every task has all four
dates set with `early_finish ≥ early_start` and
`late_finish ≥ late_start`; the cross inequalities `EF ≤ LF` and
`ES ≤ LS` of the claim need not hold (they fail when the project start
date is a non-working day). -/
theorem refresh_early_late_span {s s' : Schedule} {sum : RefreshSummary}
    (h : Schedule.refresh s = (s', Except.ok sum)) :
    ∀ t ∈ s'.tasks, ∃ es ef ls lf,
      t.early_start = some es ∧ t.early_finish = some ef ∧
      t.late_start = some ls ∧ t.late_finish = some lf ∧
      es ≤ ef ∧ ls ≤ lf := by
  obtain ⟨s1, s2, hf, hb, hs'⟩ := refresh_ok_inversion h
  obtain ⟨_, hcal1, results, hres, htasks1⟩ := forward_pass_ok_tasks hf
  have hresinv := forward_results_inv hres
  have hS1 : ∀ t ∈ s1.tasks, ∃ es ef, t.early_start = some es ∧
      t.early_finish = some ef ∧ es ≤ ef := by
    intro t ht
    rw [htasks1] at ht
    obtain ⟨t0, ht0, rfl⟩ := List.mem_map.mp ht
    obtain ⟨es, d, h1, h2⟩ := forward_persist_es_ef hresinv t0
    refine ⟨es, s.calendar.find_next_available es d, h1, h2, ?_⟩
    unfold WorkCalendar.find_next_available
    exact WorkCalendar.le_iterate_next_available s.calendar es d.toNat
  have hS2 : ∀ t ∈ s2.tasks, ∃ es ef ls lf,
      t.early_start = some es ∧ t.early_finish = some ef ∧
      t.late_start = some ls ∧ t.late_finish = some lf ∧
      es ≤ ef ∧ ls ≤ lf := by
    obtain ⟨_, hcal2, hcase⟩ := backward_pass_ok_tasks hb
    rcases hcase with ⟨hnil, rfl⟩ | ⟨bres, hbres, htasks2⟩
    · intro t ht
      rw [hnil] at ht
      exact absurd ht (by simp)
    · have hbinv := backward_results_inv hbres
      intro t ht
      rw [htasks2] at ht
      obtain ⟨tb, htb, rfl⟩ := List.mem_map.mp ht
      obtain ⟨t0, ht0, rfl⟩ := List.mem_map.mp htb
      obtain ⟨es, ef, hes, hef, hesef⟩ := hS1 t0 ht0
      obtain ⟨hi, he1, he2, hl1, hl2, _, _, _, _⟩ :=
        float_update_preserves (s1.tasks.map (Schedule.backward_persist bres))
          (Schedule.backward_persist bres t0)
      rcases backward_persist_shape hbinv t0 with
        ⟨lf, d, hls, hlf⟩ | ⟨hls, hlf⟩
      · refine ⟨es, ef, s1.calendar.find_prev_available lf d, lf, ?_, ?_, ?_, ?_,
          hesef, ?_⟩
        · rw [he1, (backward_persist_preserves bres t0).2.1, hes]
        · rw [he2, (backward_persist_preserves bres t0).2.2.1, hef]
        · rw [hl1, hls]
        · rw [hl2, hlf]
        · unfold WorkCalendar.find_prev_available
          exact WorkCalendar.iterate_prev_available_le s1.calendar lf d.toNat
      · refine ⟨es, ef, es, ef, ?_, ?_, ?_, ?_, hesef, hesef⟩
        · rw [he1, (backward_persist_preserves bres t0).2.1, hes]
        · rw [he2, (backward_persist_preserves bres t0).2.2.1, hef]
        · rw [hl1, hls, hes]
        · rw [hl2, hlf, hef]
  subst hs'
  intro t ht
  rw [set_successors_column_tasks] at ht
  obtain ⟨tv, htv, rfl⟩ := List.mem_map.mp ht
  rw [set_schedule_variance_tasks] at htv
  obtain ⟨t2, ht2, rfl⟩ := List.mem_map.mp htv
  obtain ⟨es, ef, ls, lf, h1, h2, h3, h4, h5, h6⟩ := hS2 t2 ht2
  exact ⟨es, ef, ls, lf, h1, h2, h3, h4, h5, h6⟩

theorem refresh_early_late_span_witness :
    Schedule.refresh tight_schedule =
      ((Schedule.refresh tight_schedule).1, Except.ok
        { task_count := 1, critical_count := 1, critical_path := [1]
          latest_finish := some 20095, positive_variance_count := 0
          negative_variance_count := 0, on_track_variance_count := 0 }) ∧
    ∀ t ∈ (Schedule.refresh tight_schedule).1.tasks, ∃ es ef ls lf,
      t.early_start = some es ∧ t.early_finish = some ef ∧
      t.late_start = some ls ∧ t.late_finish = some lf ∧
      es ≤ ef ∧ ls ≤ lf := by
  have h : Schedule.refresh tight_schedule =
      ((Schedule.refresh tight_schedule).1, Except.ok
        { task_count := 1, critical_count := 1, critical_path := [1]
          latest_finish := some 20095, positive_variance_count := 0
          negative_variance_count := 0, on_track_variance_count := 0 }) := by
    decide
  exact ⟨h, refresh_early_late_span h⟩

/-! ### Schedule variance (C5) -/

theorem variance_of_congr {cal : WorkCalendar} {t u : Task}
    (h1 : t.baseline_finish = u.baseline_finish)
    (h2 : t.actual_finish = u.actual_finish)
    (h3 : t.baseline_start = u.baseline_start)
    (h4 : t.actual_start = u.actual_start) :
    Schedule.variance_of cal t = Schedule.variance_of cal u := by
  unfold Schedule.variance_of
  rw [h1, h2, h3, h4]

/-- C5: during refresh, schedule_variance_days of the i-th task is the
signed working-day difference of the task's actual and baseline finish
dates when both are set, else of the start dates when both are set, else
null; the signed difference is 0 for equal dates, the available-day count
of the inclusive span minus one when the actual date is later, and its
negation when earlier.  With the default calendar, baseline_finish
2025-01-08 and actual_finish 2025-01-10 give variance 2. -/
theorem refresh_schedule_variance_rule {s s' : Schedule} {sum : RefreshSummary}
    (h : Schedule.refresh s = (s', Except.ok sum)) :
    (s'.tasks.length = s.tasks.length ∧
     ∀ (i : Nat) (t' t0 : Task), s'.tasks.get? i = some t' →
       s.tasks.get? i = some t0 →
      t'.schedule_variance_days =
        (match t0.baseline_finish, t0.actual_finish with
         | some bf, some af =>
           some (if bf = af then 0
             else if af > bf then s.calendar.count_available_days bf af - 1
             else -(s.calendar.count_available_days af bf - 1))
         | _, _ =>
           match t0.baseline_start, t0.actual_start with
           | some bs, some as_ =>
             some (if bs = as_ then 0
               else if as_ > bs then s.calendar.count_available_days bs as_ - 1
               else -(s.calendar.count_available_days as_ bs - 1))
           | _, _ => none)) ∧
    ((Schedule.refresh variance_schedule).1.tasks.map fun t =>
      t.schedule_variance_days) = [some 2] := by
  obtain ⟨s1, s2, hf, hb, hs'⟩ := refresh_ok_inversion h
  obtain ⟨hmd1, hcal1, results, hres, htasks1⟩ := forward_pass_ok_tasks hf
  obtain ⟨hmd2, hcal2, hcase⟩ := backward_pass_ok_tasks hb
  have hlen2 : s2.tasks.length = s.tasks.length := by
    rcases hcase with ⟨hnil, rfl⟩ | ⟨bres, hbres, htasks2⟩
    · rw [htasks1]; simp
    · rw [htasks2, htasks1]; simp
  have hfields : ∀ (i : Nat) (t2 t0 : Task), s2.tasks.get? i = some t2 →
      s.tasks.get? i = some t0 →
      t2.baseline_finish = t0.baseline_finish ∧
      t2.actual_finish = t0.actual_finish ∧
      t2.baseline_start = t0.baseline_start ∧
      t2.actual_start = t0.actual_start := by
    intro i t2 t0 h2 h0
    rcases hcase with ⟨hnil, rfl⟩ | ⟨bres, hbres, htasks2⟩
    · rw [hnil] at h2; simp at h2
    · rw [htasks2, htasks1] at h2
      rw [List.get?_map, List.get?_map, List.get?_map, h0] at h2
      simp only [Option.map_some'] at h2
      have ht2 := (Option.some.inj h2).symm
      subst ht2
      obtain ⟨_, hb1, hb2, hb3, hb4, _, _⟩ :=
        forward_persist_preserves s results t0
      obtain ⟨_, _, _, hc1, hc2, hc3, hc4⟩ :=
        backward_persist_preserves bres (Schedule.forward_persist s results t0)
      obtain ⟨_, _, _, _, _, hd1, hd2, hd3, hd4⟩ :=
        float_update_preserves
          (List.map (Schedule.backward_persist bres)
            (List.map (Schedule.forward_persist s results) s.tasks))
          (Schedule.backward_persist bres (Schedule.forward_persist s results t0))
      exact ⟨by rw [hd2, hc2, hb2], by rw [hd4, hc4, hb4],
        by rw [hd1, hc1, hb1], by rw [hd3, hc3, hb3]⟩
  subst hs'
  refine ⟨⟨?_, ?_⟩, by decide⟩
  · rw [set_successors_column_tasks, set_schedule_variance_tasks]
    simpa using hlen2
  · intro i t' t0 h' h0
    rw [set_successors_column_tasks, set_schedule_variance_tasks] at h'
    rw [List.get?_map, List.get?_map] at h'
    cases h2 : s2.tasks.get? i with
    | none => rw [h2] at h'; simp at h'
    | some t2 =>
      rw [h2] at h'
      simp only [Option.map_some'] at h'
      have ht' := (Option.some.inj h').symm
      subst ht'
      obtain ⟨he1, he2, he3, he4⟩ := hfields i t2 t0 h2 h0
      show Schedule.variance_of (Schedule.set_schedule_variance s2).calendar t2 = _
      have hcalv : (Schedule.set_schedule_variance s2).calendar = s2.calendar := rfl
      rw [hcalv, variance_of_congr he1 he2 he3 he4, hcal2, hcal1]
      unfold Schedule.variance_of Schedule.working_days_diff
      rfl

theorem refresh_schedule_variance_rule_witness :
    Schedule.refresh variance_schedule =
      ((Schedule.refresh variance_schedule).1, Except.ok
        { task_count := 1, critical_count := 0, critical_path := []
          latest_finish := some 20095, positive_variance_count := 1
          negative_variance_count := 0, on_track_variance_count := 0 }) ∧
    (((Schedule.refresh variance_schedule).1.tasks.length =
        variance_schedule.tasks.length ∧
      ∀ (i : Nat) (t' t0 : Task),
        (Schedule.refresh variance_schedule).1.tasks.get? i = some t' →
        variance_schedule.tasks.get? i = some t0 →
        t'.schedule_variance_days =
          (match t0.baseline_finish, t0.actual_finish with
           | some bf, some af =>
             some (if bf = af then 0
               else if af > bf then
                 variance_schedule.calendar.count_available_days bf af - 1
               else -(variance_schedule.calendar.count_available_days af bf - 1))
           | _, _ =>
             match t0.baseline_start, t0.actual_start with
             | some bs, some as_ =>
               some (if bs = as_ then 0
                 else if as_ > bs then
                   variance_schedule.calendar.count_available_days bs as_ - 1
                 else -(variance_schedule.calendar.count_available_days as_ bs - 1))
             | _, _ => none)) ∧
     ((Schedule.refresh variance_schedule).1.tasks.map fun t =>
       t.schedule_variance_days) = [some 2]) := by
  have h : Schedule.refresh variance_schedule =
      ((Schedule.refresh variance_schedule).1, Except.ok
        { task_count := 1, critical_count := 0, critical_path := []
          latest_finish := some 20095, positive_variance_count := 1
          negative_variance_count := 0, on_track_variance_count := 0 }) := by
    decide
  exact ⟨h, refresh_schedule_variance_rule h⟩

/-! ### Critical path (C4) -/

theorem task_ids_map_of_preserve {f : Task → Task}
    (hf : ∀ t, (f t).id = t.id) (l : List Task) :
    task_ids (l.map f) = task_ids l := by
  unfold task_ids
  rw [List.map_map]
  apply List.map_congr_left
  intro t _
  exact hf t

theorem refresh_preserves_ids {s s' : Schedule} {sum : RefreshSummary}
    (h : Schedule.refresh s = (s', Except.ok sum)) :
    task_ids s'.tasks = task_ids s.tasks := by
  obtain ⟨s1, s2, hf, hb, hs'⟩ := refresh_ok_inversion h
  obtain ⟨_, _, results, hres, htasks1⟩ := forward_pass_ok_tasks hf
  obtain ⟨_, _, hcase⟩ := backward_pass_ok_tasks hb
  have h1 : task_ids s1.tasks = task_ids s.tasks := by
    rw [htasks1]
    exact task_ids_map_of_preserve
      (fun t => (forward_persist_preserves s results t).1) s.tasks
  have h2 : task_ids s2.tasks = task_ids s1.tasks := by
    rcases hcase with ⟨hnil, rfl⟩ | ⟨bres, hbres, htasks2⟩
    · rfl
    · rw [htasks2]
      rw [task_ids_map_of_preserve
        (fun t => (float_update_preserves _ t).1)]
      exact task_ids_map_of_preserve
        (fun t => (backward_persist_preserves bres t).1) s1.tasks
  have hsv : ∀ u : Schedule,
      task_ids (Schedule.set_schedule_variance u).tasks = task_ids u.tasks := by
    intro u
    rw [set_schedule_variance_tasks]
    apply task_ids_map_of_preserve
    intro t
    rfl
  have hsc : ∀ u : Schedule,
      task_ids (Schedule.set_successors_column u).tasks = task_ids u.tasks := by
    intro u
    rw [set_successors_column_tasks]
    apply task_ids_map_of_preserve
    intro t
    rfl
  subst hs'
  rw [hsc, hsv, h2, h1]

theorem find_task_nodup {tasks : List Task} (hN : (task_ids tasks).Nodup)
    {t : Task} (ht : t ∈ tasks) :
    tasks.find? (fun u => u.id = t.id) = some t := by
  induction tasks with
  | nil => simp at ht
  | cons a rest ih =>
    have hN' : (task_ids rest).Nodup := by
      unfold task_ids at hN ⊢
      exact (List.nodup_cons.mp (by simpa using hN)).2
    rcases List.mem_cons.mp ht with rfl | hmem
    · simp [List.find?]
    · by_cases heq : a.id = t.id
      · exfalso
        have hin : t.id ∈ task_ids rest := mem_task_ids.mpr ⟨t, hmem, rfl⟩
        have hda : a.id ∉ task_ids rest := by
          have hN2 := hN
          unfold task_ids at hN2
          simp only [List.map_cons] at hN2
          exact fun hc => (List.nodup_cons.mp hN2).1 (by simpa [task_ids] using hc)
        rw [heq] at hda
        exact hda hin
      · rw [List.find?]
        have hd : (decide (a.id = t.id)) = false := by simp [heq]
        rw [hd]
        exact ih hN' hmem

theorem mem_critical_pairs {s : Schedule} {p : Int × Int} :
    p ∈ Schedule.critical_pairs s ↔
      ∃ t ∈ s.tasks, t.total_float = some 0 ∧
        p = (t.early_start.getD s.metadata.project_start_date, t.id) := by
  unfold Schedule.critical_pairs
  rw [List.mem_filterMap]
  constructor
  · rintro ⟨t, ht, hf⟩
    cases htf : t.total_float with
    | none => rw [htf] at hf; simp at hf
    | some tf =>
      rw [htf] at hf
      simp only at hf
      by_cases h0 : tf = 0
      · subst h0
        rw [if_pos rfl] at hf
        exact ⟨t, ht, htf, (Option.some.inj hf).symm⟩
      · rw [if_neg h0] at hf; simp at hf
  · rintro ⟨t, ht, htf, rfl⟩
    exact ⟨t, ht, by simp [htf]⟩

theorem critical_pairs_map_snd (s : Schedule) :
    (Schedule.critical_pairs s).map (fun p => p.2) =
      (s.tasks.filter fun t => t.total_float = some 0).map (fun t => t.id) := by
  unfold Schedule.critical_pairs
  induction s.tasks with
  | nil => rfl
  | cons t rest ih =>
    rw [List.filterMap_cons, List.filter_cons]
    cases htf : t.total_float with
    | none => simpa [htf] using ih
    | some tf =>
      by_cases h0 : tf = 0
      · subst h0
        simp only [htf]
        simpa using ih
      · simp only [htf]
        simp only [h0]
        have hd : (decide (some tf = some (0 : Int))) = false := by simp [h0]
        simp only [hd, if_neg h0]
        simpa using ih

theorem refresh_ok_sum {s s' : Schedule} {sum : RefreshSummary}
    (h : Schedule.refresh s = (s', Except.ok sum)) :
    sum.critical_path = (List.insertionSort Schedule.pair_le
      (Schedule.critical_pairs s')).map (fun p => p.2) ∧
    sum.critical_count =
      (s'.tasks.filter fun t => t.is_critical = some true).length := by
  unfold Schedule.refresh at h
  split_ifs at h with hmd
  · exact absurd (congrArg Prod.snd h) (by simp)
  cases hf : Schedule.forward_pass s with
  | error e =>
    rw [hf] at h
    simp only at h
    exact absurd (congrArg Prod.snd h) (by simp)
  | ok s1 =>
    rw [hf] at h
    simp only at h
    cases hh : Schedule.validate_project_horizon s1 with
    | error e =>
      rw [hh] at h
      simp only at h
      exact absurd (congrArg Prod.snd h) (by simp)
    | ok u =>
      cases u
      rw [hh] at h
      simp only at h
      cases hb : Schedule.backward_pass s1 with
      | error e =>
        rw [hb] at h
        simp only at h
        exact absurd (congrArg Prod.snd h) (by simp)
      | ok s2 =>
        rw [hb] at h
        simp only at h
        have hfst := congrArg Prod.fst h
        have hsnd := congrArg Prod.snd h
        simp only at hfst hsnd
        have hsum := (Except.ok.inj hsnd).symm
        subst hsum
        rw [← hfst]
        exact ⟨rfl, rfl⟩

theorem refresh_crit_iff {s s' : Schedule} {sum : RefreshSummary}
    (h : Schedule.refresh s = (s', Except.ok sum)) :
    ∀ t ∈ s'.tasks, t.is_critical = some (decide (t.total_float = some 0)) := by
  obtain ⟨s1, s2, hf, hb, hs'⟩ := refresh_ok_inversion h
  obtain ⟨_, _, hcase⟩ := backward_pass_ok_tasks hb
  subst hs'
  intro t ht
  rw [set_successors_column_tasks] at ht
  obtain ⟨tv, htv, rfl⟩ := List.mem_map.mp ht
  rw [set_schedule_variance_tasks] at htv
  obtain ⟨t2, ht2, rfl⟩ := List.mem_map.mp htv
  show t2.is_critical = some (decide (t2.total_float = some 0))
  rcases hcase with ⟨hnil, rfl⟩ | ⟨bres, hbres, htasks2⟩
  · rw [hnil] at ht2; simp at ht2
  · rw [htasks2] at ht2
    obtain ⟨tb, htb, rfl⟩ := List.mem_map.mp ht2
    show some (decide _) = some (decide (some _ = some (0 : Int)))
    simp

/-- C4: after a successful refresh (unique task ids assumed, spec §3
invariant 1), a task is critical exactly when its total float is 0, the
summary's critical path consists of exactly the ids of the zero-float
tasks ordered by early start then id, and critical_count counts them. -/
theorem refresh_critical_path_spec {s s' : Schedule} {sum : RefreshSummary}
    (hN : (task_ids s.tasks).Nodup)
    (h : Schedule.refresh s = (s', Except.ok sum)) :
    (∀ t ∈ s'.tasks, t.is_critical = some (decide (t.total_float = some 0))) ∧
    List.Perm sum.critical_path
      ((s'.tasks.filter fun t => t.total_float = some 0).map fun t => t.id) ∧
    List.Sorted Schedule.pair_le
      (sum.critical_path.map (Schedule.critical_key s')) ∧
    sum.critical_count =
      (s'.tasks.filter fun t => t.total_float = some 0).length := by
  have hcrit := refresh_crit_iff h
  obtain ⟨hpath, hcount⟩ := refresh_ok_sum h
  have hN2 : (task_ids s'.tasks).Nodup := by
    rw [refresh_preserves_ids h]; exact hN
  refine ⟨hcrit, ?_, ?_, ?_⟩
  · rw [hpath, ← critical_pairs_map_snd]
    exact List.Perm.map _ (List.perm_insertionSort _ _)
  · rw [hpath]
    have hsorted : List.Sorted Schedule.pair_le
        (List.insertionSort Schedule.pair_le (Schedule.critical_pairs s')) :=
      List.sorted_insertionSort _ _
    have hkey : ∀ p ∈ List.insertionSort Schedule.pair_le
        (Schedule.critical_pairs s'), Schedule.critical_key s' p.2 = p := by
      intro p hp
      have hp2 : p ∈ Schedule.critical_pairs s' :=
        (List.perm_insertionSort _ _).mem_iff.mp hp
      obtain ⟨t, ht, htf, rfl⟩ := mem_critical_pairs.mp hp2
      unfold Schedule.critical_key
      rw [find_task_nodup hN2 ht]
      rfl
    rw [List.map_map]
    have hmapid : (List.insertionSort Schedule.pair_le
        (Schedule.critical_pairs s')).map
        (Schedule.critical_key s' ∘ fun p => p.2) =
        List.insertionSort Schedule.pair_le (Schedule.critical_pairs s') := by
      have := List.map_congr_left (l := List.insertionSort Schedule.pair_le
        (Schedule.critical_pairs s'))
        (f := Schedule.critical_key s' ∘ fun p => p.2) (g := id)
        (fun p hp => hkey p hp)
      rw [this, List.map_id]
    rw [hmapid]
    exact hsorted
  · rw [hcount]
    have hcong : ∀ t ∈ s'.tasks,
        (decide (t.is_critical = some true)) =
          (decide (t.total_float = some 0)) := by
      intro t ht
      rw [hcrit t ht]
      by_cases hx : t.total_float = some 0 <;> simp [hx]
    rw [List.filter_congr hcong]

theorem refresh_critical_path_spec_witness :
    (task_ids tight_schedule.tasks).Nodup ∧
    Schedule.refresh tight_schedule =
      ((Schedule.refresh tight_schedule).1, Except.ok
        { task_count := 1, critical_count := 1, critical_path := [1]
          latest_finish := some 20095, positive_variance_count := 0
          negative_variance_count := 0, on_track_variance_count := 0 }) ∧
    ((∀ t ∈ (Schedule.refresh tight_schedule).1.tasks,
        t.is_critical = some (decide (t.total_float = some 0))) ∧
     List.Perm [1]
       (((Schedule.refresh tight_schedule).1.tasks.filter fun t =>
          t.total_float = some 0).map fun t => t.id) ∧
     List.Sorted Schedule.pair_le
       ([1].map (Schedule.critical_key (Schedule.refresh tight_schedule).1)) ∧
     (1 : Nat) = ((Schedule.refresh tight_schedule).1.tasks.filter fun t =>
        t.total_float = some 0).length) := by
  have h : Schedule.refresh tight_schedule =
      ((Schedule.refresh tight_schedule).1, Except.ok
        { task_count := 1, critical_count := 1, critical_path := [1]
          latest_finish := some 20095, positive_variance_count := 0
          negative_variance_count := 0, on_track_variance_count := 0 }) := by
    decide
  exact ⟨by decide, h, refresh_critical_path_spec (by decide) h⟩

/-! ### Mutator theorems (C2, C10) -/

/-- C10: deleting an id that names no task returns false and leaves the
schedule untouched (no rebuild, no refresh). -/
theorem delete_task_missing_id_noop (s : Schedule) (task_id : Int)
    (h : task_id ∉ task_ids s.tasks) :
    Schedule.delete_task s task_id = (s, Except.ok false) := by
  unfold Schedule.delete_task
  by_cases hemp : s.tasks.isEmpty
  · rw [if_pos hemp]
  · rw [if_neg hemp]
    have hfound : (s.tasks.any fun t => t.id = task_id) = false := by
      rw [List.any_eq_false]
      intro t ht
      simp only [decide_eq_true_eq]
      intro hc
      exact h (mem_task_ids.mpr ⟨t, ht, hc⟩)
    simp [hfound]

theorem delete_task_missing_id_noop_witness :
    (7 : Int) ∉ task_ids two_task_schedule.tasks ∧
    Schedule.delete_task two_task_schedule 7 =
      (two_task_schedule, Except.ok false) :=
  ⟨by decide, delete_task_missing_id_noop two_task_schedule 7 (by decide)⟩

/-- C2 is false as stated: `upsert_task` on the existing id 1 of the
chain 1 → 2, with predecessors [2], writes the name and the new
predecessor list, then fails in the recompute with the cycle error — the
operation returns an error yet the task table is left modified. -/
theorem upsert_task_error_mutates_cex :
    (Schedule.upsert_task two_task_schedule 1 "A" 1 (some [2])).2 =
      Except.error ComputeError.cycle_detected ∧
    (Schedule.upsert_task two_task_schedule 1 "A" 1 (some [2])).1 ≠
      two_task_schedule ∧
    ((Schedule.upsert_task two_task_schedule 1 "A" 1 (some [2])).1.tasks.map
      fun t => t.predecessors) = [[2], [1]] ∧
    (two_task_schedule.tasks.map fun t => t.predecessors) = [[], [1]] :=
  ⟨by decide, by decide, by decide, by decide⟩

/-- C2 (amended): the validation-guarded paths do leave the Schedule
unchanged on failure — upsert_task's negative-duration rejection,
upsert_task_record's validate_task, and set_metadata's metadata
validation all return the error with the state untouched; the
unchanged-on-error guarantee does not extend to failures of the
recomputation that runs after an edit (duration updates on an existing
id, delete_task's rebuild and refresh), which leave the already-applied
edit observable. -/
theorem mutators_unchanged_on_validation_failure (s : Schedule) (t : Task)
    (id : Int) (name : String) (d : Int) (preds : Option (List Int))
    (md : ScheduleMetadata) :
    (d < 0 → Schedule.upsert_task s id name d preds =
      (s, Except.error (ComputeError.negative_duration id d))) ∧
    (∀ e, validate_task t = Except.error e →
      Schedule.upsert_task_record s t =
        (s, Except.error (ComputeError.validation e))) ∧
    (∀ e, Schedule.validate_metadata s md = Except.error e →
      Schedule.set_metadata s md = (s, Except.error e)) := by
  refine ⟨?_, ?_, ?_⟩
  · intro hd
    unfold Schedule.upsert_task
    rw [if_pos hd]
  · intro e he
    unfold Schedule.upsert_task_record
    rw [he]
  · intro e he
    unfold Schedule.set_metadata
    rw [he]

theorem mutators_unchanged_on_validation_failure_witness :
    ((-1 : Int) < 0 ∧
     Schedule.upsert_task two_task_schedule 9 "T" (-1) none =
       (two_task_schedule,
        Except.error (ComputeError.negative_duration 9 (-1)))) ∧
    (validate_task (Task.new 9 "T" (-1)) =
       Except.error (TaskValidationError.negative_duration 9 (-1)) ∧
     Schedule.upsert_task_record two_task_schedule (Task.new 9 "T" (-1)) =
       (two_task_schedule, Except.error (ComputeError.validation
         (TaskValidationError.negative_duration 9 (-1))))) ∧
    (Schedule.validate_metadata two_task_schedule (example_metadata 20094 20089) =
       Except.error (ScheduleMetadataError.start_after_end 20094 20089) ∧
     Schedule.set_metadata two_task_schedule (example_metadata 20094 20089) =
       (two_task_schedule,
        Except.error (ScheduleMetadataError.start_after_end 20094 20089))) := by
  refine ⟨⟨by decide, ?_⟩, ⟨by decide, ?_⟩, ⟨by decide, ?_⟩⟩
  · exact (mutators_unchanged_on_validation_failure two_task_schedule
      (Task.new 9 "T" (-1)) 9 "T" (-1) none (example_metadata 20094 20089)).1
      (by decide)
  · exact (mutators_unchanged_on_validation_failure two_task_schedule
      (Task.new 9 "T" (-1)) 9 "T" (-1) none (example_metadata 20094 20089)).2.1
      _ (by decide)
  · exact (mutators_unchanged_on_validation_failure two_task_schedule
      (Task.new 9 "T" (-1)) 9 "T" (-1) none (example_metadata 20094 20089)).2.2
      _ (by decide)

end ScheduleCore
